import Mathlib

set_option maxRecDepth 8000

/-!
Shallow embedding of the CSP minesweeper solver of `mine_sweeperr`
(src/solver/csp/{board,constraint,solution_set,mod}.rs plus the cell and
neighbor utilities of src/cell.rs and src/utils.rs), together with proofs
about the embedded functions.

Modelling conventions:
* `Rc<RefCell<BoardCell>>` handles are identified by their coordinate
  (`PartialEq for BoardCell` compares coordinates only); all cell state lives
  in the `Board` and constraints store coordinates.
* `Rc<RefCell<Constraint>>` handles inside one list are identified by index;
  mutation is functional update of the list.
* `usize`/`isize`/`i32` values are modelled as `Int` (for the `state`,
  `constant`, counters) or `Nat` (for indices); where the source would abort
  (overflow-checked subtraction, out-of-bounds indexing) the model either uses
  a defaulted read (`getD`) at points the solver cannot reach, or an explicit
  checked operation where a claim is about that abort.
* loops without a structural bound take an explicit fuel argument and return
  `Option`, `none` meaning the fuel ran out.
-/

namespace MineSweeperr

/-- `CellState` of src/cell.rs. -/
inductive CellState where
  | Closed
  | Open
  | Flagged
  deriving DecidableEq, Repr, Inhabited

/-- `CellContent` of src/cell.rs. -/
inductive CellContent where
  | Mine
  | Number (n : Nat)
  deriving DecidableEq, Repr, Inhabited

/-- `Cell` of src/cell.rs. -/
structure Cell where
  state : CellState
  content : CellContent
  deriving DecidableEq, Repr, Inhabited

/-- `Coordinate`: a (row, column) pair. -/
abbrev Coordinate := Nat × Nat

/-- Integers `a, a+1, …, b` (an inclusive Rust range `a..=b`; empty if `b < a`). -/
def rangeIncl (a b : Nat) : List Nat :=
  List.range' a (b + 1 - a)

/-- `iter_neighbors` of src/utils.rs, in the in-bounds case: row-major scan of the
up-to-3×3 block around `coord` clipped to the board, without `coord` itself.
The source's `Err(OutOfBounds)` branch is never taken by the solver, which only
derives coordinates from valid ones. -/
def iter_neighbors (coord : Coordinate) (height width : Nat) : List Coordinate :=
  (((rangeIncl (coord.1 - 1) (min (coord.1 + 1) (height - 1))).map (fun i =>
      (rangeIncl (coord.2 - 1) (min (coord.2 + 1) (width - 1))).map (fun j => (i, j)))).flatten).filter
    (fun pos => pos ≠ coord)

/-! Resolution-state sentinels of src/solver/csp/board.rs. -/

def UNKNOWN : Int := -5
def CONSTRAINED : Int := -4
def MARKED : Int := -3
def MINE : Int := -1
def CLEAR : Int := 0

/-- `BoardCell` of src/solver/csp/board.rs. -/
structure BoardCell where
  cell : Cell
  coordinate : Coordinate
  state : Int
  boundary_level : Int
  test_assignment : Int
  deriving DecidableEq, Repr, Inhabited

/-- `BoardCell::new`. -/
def BoardCell.new (cell : Cell) (coordinate : Coordinate) : BoardCell :=
  { cell := cell
    coordinate := coordinate
    state := UNKNOWN
    boundary_level := 0
    test_assignment := -1 }

/-- `Board` of src/solver/csp/board.rs.  The `usize` counters `unknown`, `clear`
and `unflagged_mines` are modelled as `Int`; `Board::flag` decrements
`unflagged_mines` without a guard, and the checked semantics of that `usize`
subtraction is captured separately by `usize_checked_sub`. -/
structure Board where
  unknown : Int
  clear : Int
  unflagged_mines : Int
  cells : List (List BoardCell)
  deriving DecidableEq, Repr, Inhabited

/-- The overflow-checked `usize` subtraction performed (in checked builds) by
`self.unflagged_mines -= 1` in `Board::flag`: `none` is the abort branch. -/
def usize_checked_sub (a b : Nat) : Option Nat :=
  if b ≤ a then some (a - b) else none

def Board.height (b : Board) : Nat := b.cells.length

/-- The source reads the width as `self.cells[0].len()`. -/
def Board.width (b : Board) : Nat := (b.cells.getD 0 []).length

/-- Read `self.cells[r][c]`; out of bounds (which would abort in the source and
is unreachable in the solver's runs) yields the default cell. -/
def Board.getCell (b : Board) (coord : Coordinate) : BoardCell :=
  (b.cells.getD coord.1 []).getD coord.2 default

/-- Functionally update `self.cells[r][c]`. -/
def Board.modifyCell (b : Board) (coord : Coordinate) (f : BoardCell → BoardCell) : Board :=
  { b with
    cells := b.cells.set coord.1 ((b.cells.getD coord.1 []).set coord.2 (f (b.getCell coord))) }

/-- `Board::new` over the mirrored game grid (the cells read from the
`MineSweeper` collaborator) and its total mine count. -/
def Board.new (grid : List (List Cell)) (mines : Nat) : Board :=
  { unknown := ((grid.getD 0 []).length * grid.length : Nat)
    clear := 0
    unflagged_mines := (mines : Int)
    cells := grid.enum.map (fun row => row.2.enum.map (fun c => BoardCell.new c.2 (row.1, c.1))) }

/-- `Board::set_state`. -/
def Board.set_state (b : Board) (coord : Coordinate) (state : Int) : Board :=
  let cell := b.getCell coord
  if cell.state = state then b
  else
    let b1 :=
      if cell.state = UNKNOWN then { b with unknown := b.unknown - 1 }
      else if cell.state = CONSTRAINED ∨ cell.state = MARKED then b
      else { b with clear := b.clear - 1 }
    let b2 := b1.modifyCell coord (fun c => { c with state := state })
    if state = UNKNOWN then { b2 with unknown := b2.unknown + 1 }
    else if state = CONSTRAINED then
      let b3 := b2.modifyCell coord (fun c => { c with boundary_level := 0 })
      (iter_neighbors coord b3.height b3.width).foldl
        (fun acc n =>
          if (acc.getCell n).state = UNKNOWN then
            acc.modifyCell n (fun c => { c with boundary_level := c.boundary_level + 1 })
          else acc)
        b3
    else if state = MARKED then
      let b3 := b2.modifyCell coord (fun c => { c with boundary_level := 0 })
      (iter_neighbors coord b3.height b3.width).foldl
        (fun acc n =>
          if (acc.getCell n).state = UNKNOWN then
            acc.modifyCell n (fun c => { c with boundary_level := c.boundary_level - 1 })
          else acc)
        b3
    else
      let b3 := b2.modifyCell coord (fun c => { c with boundary_level := 0 })
      if 0 ≤ state then { b3 with clear := b3.clear + 1 } else b3

/-- `Board::open_cell`: reveals the mirrored game cell and computes the local
value (`MARKED` for a flagged cell, `MINE` for a mine, the number otherwise). -/
def Board.open_cell (b : Board) (coord : Coordinate) : Board × Int :=
  let cell := b.getCell coord
  match cell.cell.state with
  | CellState.Flagged => (b, MARKED)
  | _ =>
    let b1 := b.modifyCell coord (fun c => { c with cell := { c.cell with state := CellState.Open } })
    match cell.cell.content with
    | CellContent.Mine => (b1, MINE)
    | CellContent.Number n => (b1, (n : Int))

/-- `Board::open`. -/
def Board.openAt (b : Board) (coord : Coordinate) : Board × Int :=
  let r := b.open_cell coord
  (r.1.set_state coord r.2, r.2)

/-- `Board::flag`. -/
def Board.flag (b : Board) (coord : Coordinate) : Board :=
  let b1 := b.modifyCell coord (fun c => { c with cell := { c.cell with state := CellState.Flagged } })
  let b2 := { b1 with unflagged_mines := b1.unflagged_mines - 1 }
  b2.set_state coord MARKED

/-- `Board::done`. -/
def Board.done (b : Board) : Bool :=
  b.cells.all (fun row => row.all (fun c =>
    c.cell.state = CellState.Open ∨ c.cell.content = CellContent.Mine))

/-- `Board::unflagged_mines`. -/
def Board.unflagged_mines_fn (b : Board) : Int := b.unflagged_mines

/-- `Board::enumerate_unknown`, read through the coordinates of the returned
cell handles (the only way the solver consumes it). -/
def Board.enumerate_unknown (b : Board) : List Coordinate :=
  ((b.cells.flatten).filter (fun c => c.state = UNKNOWN)).map (fun c => c.coordinate)

/-- `Vec::swap_remove(i)`: replace element `i` with the last element and pop. -/
def swapRemove {α : Type} [Inhabited α] (l : List α) (i : Nat) : List α :=
  (l.set i (l.getLast?.getD default)).dropLast

/-- `Constraint` of src/solver/csp/constraint.rs.  Variables are the
coordinates of the referenced `BoardCell`s (cell handles compare equal exactly
when their coordinates do). -/
structure Constraint where
  vars : List Coordinate
  constant : Int
  unassigned : Int
  current_constant : Int
  next_unassigned : Option Coordinate
  deriving DecidableEq, Repr, Inhabited

/-- `Constraint::new`. -/
def Constraint.new : Constraint :=
  { vars := []
    constant := 0
    unassigned := 0
    current_constant := 0
    next_unassigned := none }

/-- `Constraint::add_variable`. -/
def Constraint.add_variable (self : Constraint) (cell : Coordinate) : Constraint :=
  { self with vars := self.vars ++ [cell] }

/-- `Constraint::get_variables`. -/
def Constraint.get_variables (self : Constraint) : List Coordinate :=
  self.vars

/-- `Constraint::set_constant`. -/
def Constraint.set_constant (self : Constraint) (constant : Int) : Constraint :=
  { self with constant := constant }

/-- `Constraint::update_variable` (the `_cell` argument is unused in the
source); trial assignments are read from the board's cells. -/
def Constraint.update_variable (self : Constraint) (b : Board) : Constraint :=
  self.vars.foldl
    (fun acc v =>
      let t := (b.getCell v).test_assignment
      if t < 0 then { acc with next_unassigned := some v, unassigned := acc.unassigned + 1 }
      else if 1 ≤ t then { acc with current_constant := acc.current_constant + 1 }
      else acc)
    { self with current_constant := 0, unassigned := 0, next_unassigned := none }

/-- `Constraint::is_satisfied`. -/
def Constraint.is_satisfied (self : Constraint) : Bool :=
  decide (self.current_constant ≤ self.constant) &&
    (decide (0 < self.unassigned) || decide (self.current_constant = self.constant))

/-- `Constraint::suggest_unassigned_variable`: also performs the trial
assignment of the forced variable on the board. -/
def Constraint.suggest_unassigned_variable (self : Constraint) (b : Board) :
    Option Coordinate × Board :=
  match self.next_unassigned with
  | none => (none, b)
  | some v =>
    if self.current_constant = self.constant then
      (some v, b.modifyCell v (fun c => { c with test_assignment := 0 }))
    else if self.constant - self.current_constant = self.unassigned then
      (some v, b.modifyCell v (fun c => { c with test_assignment := 1 }))
    else (none, b)

/-- `Constraint::is_empty`. -/
def Constraint.is_empty (self : Constraint) : Bool :=
  self.vars.isEmpty

/-- `Constraint::coupled_with`: true when the two constraints share a
variable. -/
def Constraint.coupled_with (self other : Constraint) : Bool :=
  other.vars.any (fun v => self.vars.contains v)

/-- `Board::new_constraint`. -/
def Board.new_constraint (b : Board) (coord : Coordinate) : Board × Option Constraint :=
  if (b.getCell coord).state < 0 then (b, none)
  else
    let r := (iter_neighbors coord b.height b.width).foldl
      (fun (acc : Constraint × Int × Board) n =>
        if (acc.2.2.getCell n).state < 0 then
          if (acc.2.2.getCell n).state = MARKED then (acc.1, acc.2.1 - 1, acc.2.2)
          else (acc.1.add_variable n, acc.2.1, acc.2.2.set_state n CONSTRAINED)
        else acc)
      (Constraint.new, (b.getCell coord).state, b)
    (r.2.2, some (r.1.set_constant r.2.1))

/-- The descending removal loop of `Constraint::update_and_remove_known_variables`:
`for i in (0..len).rev()`, dropping resolved variables by `swap_remove` and
decrementing the constant for `MARKED` ones. -/
def removeKnownLoop (b : Board) : Nat → List Coordinate → Int → List Coordinate × Int
  | 0, vars, const => (vars, const)
  | i + 1, vars, const =>
    let st := (b.getCell (vars.getD i default)).state
    if 0 ≤ st then removeKnownLoop b i (swapRemove vars i) const
    else if st = MARKED then removeKnownLoop b i (swapRemove vars i) (const - 1)
    else removeKnownLoop b i vars const

/-- The body of the safe-opening loop in
`Constraint::update_and_remove_known_variables`: open the variable, then try
to build a fresh constraint at it, collecting the successes. -/
def openStep (acc : Board × List Constraint) (v : Coordinate) : Board × List Constraint :=
  let o := acc.1.openAt v
  let nc := o.1.new_constraint v
  match nc.2 with
  | some c => (nc.1, acc.2 ++ [c])
  | none => (nc.1, acc.2)

/-- `Constraint::update_and_remove_known_variables`.  Returns the updated
constraint, the updated board, and the optional list of freshly built
constraints (`None` of the source is `none`). -/
def Constraint.update_and_remove_known_variables (self : Constraint) (b : Board) :
    Constraint × Board × Option (List Constraint) :=
  let vc := removeKnownLoop b self.vars.length self.vars self.constant
  let self1 : Constraint := { self with vars := vc.1, constant := vc.2 }
  if self1.is_empty then (self1, b, none)
  else if self1.constant = 0 then
    let r := self1.vars.foldl openStep (b, [])
    ({ self1 with vars := [], constant := 0 }, r.1, some r.2)
  else if self1.constant = (self1.vars.length : Int) then
    let b2 := self1.vars.foldl (fun acc v => acc.flag v) b
    ({ self1 with vars := [], constant := 0 }, b2, some [])
  else (self1, b, none)

/-- The containment scan of `Constraint::simplify`: every variable of `other`
occurs among `this`'s variables; with an empty `this` the inner scan is empty
and the check passes vacuously (as in the source). -/
def Constraint.subset_check (this other : List Coordinate) : Bool :=
  other.all (fun v => this.isEmpty || this.contains v)

/-- The removal phase of `Constraint::simplify`: for each variable of `other`,
`swap_remove` its first occurrence in `this`.  (When a variable is absent the
source's scan would index out of bounds; that is unreachable because the
containment scan ran first and the solver's constraints have no duplicate
variables.) -/
def Constraint.remove_vars (this other : List Coordinate) : List Coordinate :=
  other.foldl
    (fun acc v =>
      match acc.findIdx? (fun x => x = v) with
      | some j => swapRemove acc j
      | none => acc)
    this

/-- The body of `Constraint::simplify` once the roles are fixed so that `this`
has at least as many variables as `other`; returns the updated `this` and the
returned flag. -/
def Constraint.simplify_core (this other : Constraint) : Constraint × Bool :=
  if !Constraint.subset_check this.vars other.vars then (this, false)
  else
    ({ this with
        vars := Constraint.remove_vars this.vars other.vars
        constant := this.constant - other.constant },
      true)

/-- `Constraint::simplify`: the source first swaps the pair so the first
argument has at least as many variables; both constraints are updated in
place, so the model returns the updated pair and the flag. -/
def Constraint.simplify (a b : Constraint) : Constraint × Constraint × Bool :=
  if a.vars.length < b.vars.length then
    let r := Constraint.simplify_core b a
    (a, r.1, r.2)
  else
    let r := Constraint.simplify_core a b
    (r.1, b, r.2)

/-- Integers `a ≤ i < b`. -/
def intRange (a b : Int) : List Int :=
  (List.range (b - a).toNat).map (fun k => a + k)

/-- Integers `a ≤ i ≤ b` (a Rust `a..=b` over `isize`). -/
def intRangeIncl (a b : Int) : List Int :=
  intRange a (b + 1)

/-- `ConstraintList` of src/solver/csp/solution_set.rs: one variable together
with the constraints referencing it.  `varc` models the source's `variable`
field (a keyword in Lean); the `Rc` constraint handles are modelled as indices
into the owning `SolutionSet`'s constraint list. -/
structure ConstraintList where
  varc : Coordinate
  constraints : List Nat
  deriving DecidableEq, Repr, Inhabited

/-- The node lookup of `SolutionSet::construct`: append constraint index `ci`
to the first node for variable `v`, or push a fresh node. -/
def addNodeFor (ci : Nat) (v : Coordinate) : List ConstraintList → List ConstraintList
  | [] => [{ varc := v, constraints := [ci] }]
  | n :: rest =>
    if n.varc = v then { n with constraints := n.constraints ++ [ci] } :: rest
    else n :: addNodeFor ci v rest

/-- Stable insertion for `self.nodes.sort()`: `ConstraintList`s are ordered by
number of referencing constraints, descending (`Ord for ConstraintList` is the
reversed length comparison), and `Vec::sort` is stable. -/
def insertNode (n : ConstraintList) : List ConstraintList → List ConstraintList
  | [] => [n]
  | m :: rest =>
    if m.constraints.length ≤ n.constraints.length then n :: m :: rest
    else m :: insertNode n rest

/-- The stable sort `self.nodes.sort()` of `SolutionSet::construct`. -/
def sortNodes (nodes : List ConstraintList) : List ConstraintList :=
  nodes.foldr insertNode []

/-- `SolutionSet` of src/solver/csp/solution_set.rs. -/
structure SolutionSet where
  constraints : List Constraint
  vars : List Coordinate
  nodes : List ConstraintList
  solutions : List Int
  mines : List (List Int)
  min : Int
  max : Int
  deriving DecidableEq, Repr, Inhabited

/-- `SolutionSet::new` followed by `construct`.  (`(self.min + 1) as usize`
would be a huge allocation for a negative sum of constants; the model clamps
with `toNat`, a state the solver does not reach with the boards analyzed.) -/
def SolutionSet.new (constraints : List Constraint) : SolutionSet :=
  let r := constraints.enum.foldl
    (fun (acc : List ConstraintList × Int) p =>
      (p.2.get_variables.foldl (fun ns v => addNodeFor p.1 v ns) acc.1, acc.2 + p.2.constant))
    ([], 0)
  let sorted := sortNodes r.1
  let vs := sorted.map (fun n => n.varc)
  { constraints := constraints
    vars := vs
    nodes := sorted
    solutions := List.replicate (r.2 + 1).toNat 0
    mines := List.replicate (r.2 + 1).toNat (List.replicate vs.length 0)
    min := r.2
    max := 0 }

/-- `SolutionSet::get_min`. -/
def SolutionSet.get_min (s : SolutionSet) : Int := s.min

/-- `SolutionSet::get_max`. -/
def SolutionSet.get_max (s : SolutionSet) : Int := s.max

/-- `SolutionSet::reduce_min_max`. -/
def SolutionSet.reduce_min_max (s : SolutionSet) (minv maxv : Int) : SolutionSet :=
  let s1 :=
    if s.min < minv then
      { s with
        solutions := (intRange s.min minv).foldl (fun sols i => sols.set i.toNat 0) s.solutions
        min := minv }
    else s
  if maxv < s1.max then
    { s1 with
      solutions := (intRangeIncl (maxv + 1) s1.max).foldl (fun sols i => sols.set i.toNat 0) s1.solutions
      max := maxv }
  else s1

/-- `SolutionSet::mark_mines`. -/
def SolutionSet.mark_mines (s : SolutionSet) (b : Board) : Board :=
  let total_solutions :=
    (intRangeIncl s.min s.max).foldl (fun acc j => acc + s.solutions.getD j.toNat 0) 0
  (List.range s.vars.length).foldl
    (fun bd i =>
      let total :=
        (intRangeIncl s.min s.max).foldl (fun acc j => acc + (s.mines.getD j.toNat []).getD i 0) 0
      if total = total_solutions then bd.flag (s.vars.getD i default) else bd)
    b

/-- The mutable state of the `SolutionSet::enumerate_solutions` loop: the board
(holding the cells' `test_assignment`s), the constraints' working fields, the
statistics, the `variable_index` stack, `last_choice` and `level`. -/
structure EnumState where
  board : Board
  constraints : List Constraint
  solutions : List Int
  mines : List (List Int)
  min : Int
  max : Int
  variable_index : List Int
  last_choice : Int
  level : Int
  deriving DecidableEq, Repr, Inhabited

/-- The forced-variable scan at the top of every search level: ask each
constraint in turn for a forced variable until one answers
(`suggest_unassigned_variable` also writes the trial assignment). -/
def suggestScan (cons : List Constraint) (b : Board) : Option Coordinate × Board :=
  match cons with
  | [] => (none, b)
  | c :: rest =>
    match c.suggest_unassigned_variable b with
    | (some v, b1) => (some v, b1)
    | (none, b1) => suggestScan rest b1

/-- The index search of the forced branch: `variable_index[level]` starts at
the variable count and is decremented until `variables[…] == var`, i.e. the
last (here: unique) index of `var`.  The source's loop would not terminate for
a variable outside the list; `-1` stands for that unreachable case. -/
def findIdxFromEnd (l : List Coordinate) (v : Coordinate) : Int :=
  match l.reverse.findIdx? (fun x => x = v) with
  | some k => (l.length : Int) - 1 - k
  | none => -1

/-- The unforced choice: advance `last_choice` past assigned variables to the
next index whose cell is still unassigned.  Running past the end (an
out-of-bounds abort in the source) is unreachable and modelled by the length. -/
def advanceChoice (b : Board) (vs : List Coordinate) (lc : Int) : Int :=
  match vs.enum.find? (fun p =>
      decide (lc < (p.1 : Int)) && decide ((b.getCell p.2).test_assignment < 0)) with
  | some p => (p.1 : Int)
  | none => (vs.length : Int)

/-- `ConstraintList::update_constraints`: refresh the working fields of every
constraint referencing the node's variable. -/
def updateNodeConstraints (node : ConstraintList) (cons : List Constraint) (b : Board) :
    List Constraint :=
  node.constraints.foldl
    (fun cs idx => cs.set idx ((cs.getD idx Constraint.new).update_variable b)) cons

/-- `ConstraintList::check_constraints`. -/
def checkNodeConstraints (node : ConstraintList) (cons : List Constraint) : Bool :=
  node.constraints.all (fun idx => (cons.getD idx Constraint.new).is_satisfied)

/-- One iteration of the `enumerate_solutions` loop body (the part before the
`if !level >= 0 { break }` check; a record step at full depth ends with
`continue` in the source, which skips that check). -/
def enumStep (vs : List Coordinate) (nodes : List ConstraintList) (s : EnumState) : EnumState :=
  if s.level = (vs.length : Int) then
    let m := vs.foldl (fun acc v => acc + (s.board.getCell v).test_assignment) 0
    let s1 := { s with
      solutions := s.solutions.set m.toNat (s.solutions.getD m.toNat 0 + 1)
      min := if m < s.min then m else s.min
      max := if s.max < m then m else s.max }
    let mines1 := vs.enum.foldl
      (fun ms p =>
        ms.set m.toNat
          ((ms.getD m.toNat []).set p.1
            ((ms.getD m.toNat []).getD p.1 0 + (s1.board.getCell p.2).test_assignment)))
      s1.mines
    { s1 with mines := mines1, level := s1.level - 1 }
  else
    let s1 :=
      if s.variable_index.getD s.level.toNat 0 < 0 then
        let sc := suggestScan s.constraints s.board
        match sc.1 with
        | some v =>
          let idx := findIdxFromEnd vs v
          { s with
            board := (sc.2.modifyCell v (fun c =>
              { c with test_assignment := c.test_assignment - 1 }))
            variable_index := s.variable_index.set s.level.toNat idx }
        | none =>
          let lc := advanceChoice sc.2 vs s.last_choice
          { s with
            board := sc.2
            variable_index := s.variable_index.set s.level.toNat lc
            last_choice := lc }
      else s
    let vi := s1.variable_index.getD s1.level.toNat 0
    let v := vs.getD vi.toNat default
    if 0 < (s1.board.getCell v).test_assignment then
      let s2 :=
        if vi ≤ s1.last_choice then { s1 with last_choice := vi - 1 } else s1
      let b2 := s2.board.modifyCell v (fun c => { c with test_assignment := -1 })
      let cons2 := updateNodeConstraints (nodes.getD vi.toNat default) s2.constraints b2
      { s2 with
        board := b2
        constraints := cons2
        variable_index := s2.variable_index.set s2.level.toNat (-1)
        level := s2.level - 1 }
    else
      let b2 := s1.board.modifyCell v (fun c => { c with test_assignment := c.test_assignment + 1 })
      let cons2 := updateNodeConstraints (nodes.getD vi.toNat default) s1.constraints b2
      let ok := checkNodeConstraints (nodes.getD vi.toNat default) cons2
      { s1 with
        board := b2
        constraints := cons2
        level := if ok then s1.level + 1 else s1.level }

/-- The `loop { … if !level >= 0 { break } }` driver of `enumerate_solutions`.
`!level >= 0` is a bitwise not on `isize`, so the loop breaks exactly when
`level < 0`; a record step at full depth ends with `continue`, skipping that
check, which the first branch mirrors. -/
def enumLoop (vs : List Coordinate) (nodes : List ConstraintList) :
    Nat → EnumState → Option EnumState
  | 0, _ => none
  | fuel + 1, s =>
    if s.level = (vs.length : Int) then
      enumLoop vs nodes fuel (enumStep vs nodes s)
    else
      let s1 := enumStep vs nodes s
      if s1.level < 0 then some s1
      else enumLoop vs nodes fuel s1

/-- `SolutionSet::enumerate_solutions` (with explicit fuel): reset the
statistics, the trial assignments and the working fields, then run the
backtracking loop. -/
def SolutionSet.enumerate_solutions (s : SolutionSet) (b : Board) (fuel : Nat) :
    Option (SolutionSet × Board) :=
  let sols0 := s.solutions.map (fun _ => 0)
  let mines0 := s.mines.map (fun row => row.map (fun _ => 0))
  let b0 := s.vars.foldl (fun bd v => bd.modifyCell v (fun c => { c with test_assignment := -1 })) b
  let cons0 := s.constraints.map (fun c => c.update_variable b0)
  let st : EnumState :=
    { board := b0
      constraints := cons0
      solutions := sols0
      mines := mines0
      min := s.min
      max := s.max
      variable_index := List.replicate s.vars.length (-1)
      last_choice := -1
      level := 0 }
  match enumLoop s.vars s.nodes fuel st with
  | none => none
  | some fin =>
    some ({ s with
        constraints := fin.constraints
        solutions := fin.solutions
        mines := fin.mines
        min := fin.min
        max := fin.max },
      fin.board)

/-- `CSPSolver` of src/solver/csp/mod.rs. -/
structure CSPSolver where
  constraints : List Constraint
  board : Board
  deriving DecidableEq, Repr, Inhabited

/-- `Solver::new for CSPSolver`. -/
def CSPSolver.new (grid : List (List Cell)) (mines : Nat) : CSPSolver :=
  { constraints := [], board := Board.new grid mines }

/-- The `while i < len` pass of `simplify_constraints` that applies
`update_and_remove_known_variables` to each constraint from index `i` on,
recording whether any returned `Some` (clearing `done`) and accumulating the
returned fresh constraints into `to_extend`.  The structural `fuel` only
bounds the recursion; the loop itself stops at the list's end, so any fuel
`≥ cons.length − i` gives the loop's behavior. -/
def updateWhile : Nat → Board → List Constraint → Nat → Bool → List Constraint →
    Board × List Constraint × Bool × List Constraint
  | 0, b, cons, _, dne, toExt => (b, cons, dne, toExt)
  | fuel + 1, b, cons, i, dne, toExt =>
    if h : i < cons.length then
      let r := (cons.get ⟨i, h⟩).update_and_remove_known_variables b
      updateWhile fuel r.2.1 (cons.set i r.1) (i + 1)
        (if r.2.2.isSome then false else dne) (toExt ++ (r.2.2.getD []))
    else (b, cons, dne, toExt)

/-- The inner `loop` of `simplify_constraints`: run `updateWhile`, and, as long
as it produced fresh constraints, append them and resume at the old length. -/
def updateLoop : Nat → Board → List Constraint → Nat → Bool →
    Option (Board × List Constraint × Bool)
  | 0, _, _, _, _ => none
  | fuel + 1, b, cons, i, dne =>
    let r := updateWhile cons.length b cons i dne []
    if r.2.2.2.isEmpty then some (r.1, r.2.1, r.2.2.1)
    else updateLoop fuel r.1 (r.2.1 ++ r.2.2.2) r.2.1.length r.2.2.1

/-- The `while i < len && cons[i].is_empty { swap_remove(i) }` sweep (any fuel
`≥ cons.length` gives the loop's behavior). -/
def removeEmptiesAt : Nat → List Constraint → Nat → List Constraint
  | 0, cons, _ => cons
  | fuel + 1, cons, i =>
    if h : i < cons.length then
      if (cons.get ⟨i, h⟩).is_empty then removeEmptiesAt fuel (swapRemove cons i) i else cons
    else cons

/-- The `for j in i+1..len` pairwise-`simplify` pass for a fixed `i` (any fuel
`≥ cons.length − j` gives the loop's behavior). -/
def pairwiseAt : Nat → List Constraint → Nat → Nat → Bool → List Constraint × Bool
  | 0, cons, _, _, dne => (cons, dne)
  | fuel + 1, cons, i, j, dne =>
    if j < cons.length then
      let r := Constraint.simplify (cons.getD i Constraint.new) (cons.getD j Constraint.new)
      pairwiseAt fuel ((cons.set i r.1).set j r.2.1) i (j + 1) (if r.2.2 then false else dne)
    else (cons, dne)

theorem pairwiseAt_length (fuel : Nat) (cons : List Constraint) (i j : Nat) (dne : Bool) :
    (pairwiseAt fuel cons i j dne).1.length = cons.length := by
  induction fuel generalizing cons j dne with
  | zero => rfl
  | succ fuel ih =>
    rw [pairwiseAt]
    split
    · rw [ih]
      simp
    · rfl

theorem removeEmptiesAt_length (fuel : Nat) (cons : List Constraint) (i : Nat) :
    (removeEmptiesAt fuel cons i).length ≤ cons.length := by
  induction fuel generalizing cons with
  | zero => exact le_refl _
  | succ fuel ih =>
    rw [removeEmptiesAt]
    split
    · split
      · refine le_trans (ih _) ?_
        simp [swapRemove]
      · exact le_refl _
    · exact le_refl _

/-- The removal-and-pairwise `while i < len` loop of `simplify_constraints`
(any fuel `≥ cons.length + 1` gives the loop's behavior: the list only
shrinks). -/
def pairwiseLoop : Nat → List Constraint → Nat → Bool → List Constraint × Bool
  | 0, cons, _, dne => (cons, dne)
  | fuel + 1, cons, i, dne =>
    if i < cons.length then
      let cons1 := removeEmptiesAt cons.length cons i
      if i < cons1.length then
        let r := pairwiseAt cons1.length cons1 i (i + 1) dne
        pairwiseLoop fuel r.1 (i + 1) r.2
      else (cons1, dne)
    else (cons, dne)

/-- `CSPSolver::simplify_constraints` (with explicit fuel for the outer loop;
the inner new-constraint loop's fuel is the cell count plus slack, enough for
every reachable board because each round of fresh constraints opens at least
one cell). -/
def simplify_constraints : Nat → Board → List Constraint →
    Option (Board × List Constraint)
  | 0, _, _ => none
  | fuel + 1, b, cons =>
    match updateLoop (b.height * b.width + 2) b cons 0 true with
    | none => none
    | some r =>
      if !r.2.2 then simplify_constraints fuel r.1 r.2.1
      else
        let p := pairwiseLoop (r.2.1.length + 1) r.2.1 0 r.2.2
        if p.2 then some (r.1, p.1) else simplify_constraints fuel r.1 p.1

/-- `Vec::swap` on a list. -/
def listSwap {α : Type} [Inhabited α] (l : List α) (i j : Nat) : List α :=
  (l.set i (l.getD j default)).set j (l.getD i default)

/-- The search of `separate_constraints` for the first `i ≥ end` coupled with
some constraint of the current run `[start, end)`. -/
def sepFindCoupled (cons : List Constraint) (start endi : Nat) : Option Nat :=
  (List.range' endi (cons.length - endi)).find? (fun i =>
    (List.range' start (endi - start)).any (fun j =>
      (cons.getD i Constraint.new).coupled_with (cons.getD j Constraint.new)))

/-- The `for end in 1..=len` loop of `CSPSolver::separate_constraints`:
grow the current run with a coupled later constraint (swapped to position
`end`), or close the run as one `SolutionSet`.  `fuel` is the remaining number
of `end` values (the list length is fixed by the loop). -/
def separateFrom : Nat → List Constraint → Nat → Nat → List SolutionSet →
    List Constraint × List SolutionSet
  | 0, cons, _, _, acc => (cons, acc)
  | fuel + 1, cons, start, endi, acc =>
    match sepFindCoupled cons start endi with
    | some i =>
      separateFrom fuel (if i ≠ endi then listSwap cons i endi else cons) start (endi + 1) acc
    | none =>
      separateFrom fuel cons endi (endi + 1)
        (acc ++ [SolutionSet.new ((cons.drop start).take (endi - start))])

/-- `CSPSolver::separate_constraints` (the swaps reorder the solver's
constraint list, so the updated list is returned as well). -/
def CSPSolver.separate_constraints (s : CSPSolver) : CSPSolver × List SolutionSet :=
  let r := separateFrom s.constraints.length s.constraints 0 1 []
  ({ s with constraints := r.1 }, r.2)

/-- The cross-bounding loop of `CSPSolver::solve` (steps at lines 45–56): for
each component the accumulators start at `(0, far)`, every *other* component's
current `min`/`max` is added, `reduce_min_max (remaining − max) (remaining −
min)` is applied, and `far_max` is decreased by the component's post-reduction
`min`.  The returned trace records the argument pair each `reduce_min_max`
call received (the loop's observable calls; it is not part of the source's
state). -/
def crossBound (subsets : List SolutionSet) (remaining far : Int) :
    List SolutionSet × Int × List (Int × Int) :=
  (List.range subsets.length).foldl
    (fun (acc : List SolutionSet × Int × List (Int × Int)) i =>
      let sums := acc.1.enum.foldl
        (fun (p : Int × Int) q => if q.1 ≠ i then (p.1 + q.2.min, p.2 + q.2.max) else p)
        (0, far)
      let args := (remaining - sums.2, remaining - sums.1)
      let subs1 := acc.1.set i ((acc.1.getD i default).reduce_min_max args.1 args.2)
      (subs1, acc.2.1 - (subs1.getD i default).min, acc.2.2 ++ [args]))
    (subsets, remaining, [])

/-- The outcome of one iteration of the `while !self.board.done()` loop of
`CSPSolver::solve`. -/
inductive LoopStep where
  /-- The `break` taken when the board is done right after simplification. -/
  | done_after_simplify (s : CSPSolver)
  /-- The `continue` taken after opening the unconstrained region. -/
  | continue_far (s : CSPSolver)
  /-- The unconditional `break` ending the loop. -/
  | stop (s : CSPSolver)
  deriving DecidableEq, Repr

def LoopStep.state : LoopStep → CSPSolver
  | done_after_simplify s => s
  | continue_far s => s
  | stop s => s

def LoopStep.isStop : LoopStep → Bool
  | stop _ => true
  | _ => false

def LoopStep.isContinue : LoopStep → Bool
  | continue_far _ => true
  | _ => false

/-- The fuel used for each component's enumeration inside `solve`: an upper
bound on the backtracking loop's iteration count for `n` variables. -/
def enumFuel (n : Nat) : Nat := 5 ^ (n + 2)

/-- One iteration of the main loop of `CSPSolver::solve` (lines 33–70 of
src/solver/csp/mod.rs), entered with `self.board.done()` false.  `none`
signals exhaustion of an inner fuel. -/
def CSPSolver.solve_step (s : CSPSolver) : Option LoopStep :=
  match simplify_constraints (s.board.height * s.board.width + s.constraints.length + 3)
      s.board s.constraints with
  | none => none
  | some r =>
    let s1 : CSPSolver := { constraints := r.2, board := r.1 }
    if s1.board.done then some (LoopStep.done_after_simplify s1)
    else
      let sep := s1.separate_constraints
      let s2 := sep.1
      let enumRes := sep.2.foldl
        (fun (acc : Option (List SolutionSet × Board)) ss =>
          match acc with
          | none => none
          | some st =>
            match ss.enumerate_solutions st.2 (enumFuel ss.vars.length) with
            | none => none
            | some r2 => some (st.1 ++ [r2.1], r2.2))
        (some ([], s2.board))
      match enumRes with
      | none => none
      | some st =>
        let s3 : CSPSolver := { s2 with board := st.2 }
        let remaining := s3.board.unflagged_mines_fn
        let far := s3.board.unknown
        let cb := crossBound st.1 remaining far
        let far_max := cb.2.1
        let b4 := cb.1.foldl (fun bd ss => ss.mark_mines bd) s3.board
        let s4 : CSPSolver := { s3 with board := b4 }
        if far_max ≤ 0 ∧ 0 < far then
          let s5 := (s4.board.enumerate_unknown).foldl
            (fun (acc : CSPSolver) coord =>
              let o := acc.board.openAt coord
              let nc := o.1.new_constraint coord
              match nc.2 with
              | some c => { constraints := acc.constraints ++ [c], board := nc.1 }
              | none => { acc with board := nc.1 })
            s4
          some (LoopStep.continue_far s5)
        else some (LoopStep.stop s4)

/-- The `while !self.board.done()` loop of `CSPSolver::solve`, followed by the
final `self.board.done()`. -/
def CSPSolver.solveLoop : Nat → CSPSolver → Option Bool
  | 0, _ => none
  | fuel + 1, s =>
    if s.board.done then some true
    else
      match s.solve_step with
      | none => none
      | some (LoopStep.done_after_simplify s1) => some s1.board.done
      | some (LoopStep.continue_far s1) => CSPSolver.solveLoop fuel s1
      | some (LoopStep.stop s1) => some s1.board.done

/-- The initial whole-board scan of `CSPSolver::solve` (lines 25–31): build a
constraint from every cell (only already-revealed numbered cells yield one). -/
def CSPSolver.initialScan (s : CSPSolver) : CSPSolver :=
  (s.board.cells.enum.flatMap (fun row => row.2.enum.map (fun c => (row.1, c.1)))).foldl
    (fun (acc : CSPSolver) coord =>
      let nc := acc.board.new_constraint coord
      match nc.2 with
      | some c => { constraints := acc.constraints ++ [c], board := nc.1 }
      | none => { acc with board := nc.1 })
    s

/-- `CSPSolver::solve` (with explicit loop fuel). -/
def CSPSolver.solve (s : CSPSolver) (start_from : Coordinate) (fuel : Nat) : Option Bool :=
  let o := s.board.openAt start_from
  if o.2 = MINE then some false
  else CSPSolver.solveLoop fuel (CSPSolver.initialScan { s with board := o.1 })

/-! ### Concrete boards used to settle the claims

All contents are consistent minesweeper layouts (each number counts the mines
among its neighbors); `exGridC` additionally carries one incorrect pre-existing
flag on a safe cell, a state a caller can legally hand to the solver. -/

/-- A closed numbered cell. -/
def exNum (n : Nat) : Cell := { state := CellState.Closed, content := CellContent.Number n }

/-- A closed mine cell. -/
def exMine : Cell := { state := CellState.Closed, content := CellContent.Mine }

/-- A flagged numbered cell (a wrong flag: the content is not a mine). -/
def exFlaggedNum (n : Nat) : Cell := { state := CellState.Flagged, content := CellContent.Number n }

/-- 1×5 board `[1, M, 2, M, 1]` with 2 mines. -/
def exGridA : List (List Cell) := [[exNum 1, exMine, exNum 2, exMine, exNum 1]]

/-- The state `CSPSolver::solve` reaches on `exGridA` from start `(0,4)` right
after opening the start cell and running the initial whole-board scan. -/
def exSolverA0 : CSPSolver :=
  CSPSolver.initialScan
    { CSPSolver.new exGridA 2 with board := ((CSPSolver.new exGridA 2).board.openAt (0, 4)).1 }

/-- 1×5 board `[1, M, 1, 0, 0]` with 1 mine. -/
def exGridB : List (List Cell) := [[exNum 1, exMine, exNum 1, exNum 0, exNum 0]]

/-- The state `CSPSolver::solve` reaches on `exGridB` from start `(0,2)` right
after opening the start cell and running the initial whole-board scan. -/
def exSolverB0 : CSPSolver :=
  CSPSolver.initialScan
    { CSPSolver.new exGridB 1 with board := ((CSPSolver.new exGridB 1).board.openAt (0, 2)).1 }

/-- 2×4 board with one mine at `(0,3)` and a wrong pre-existing flag on the
safe cell `(0,1)`:
row 0 `[0, 0(flagged), 1, M]`, row 1 `[0, 0, 1, 1]`. -/
def exGridC : List (List Cell) :=
  [[exNum 0, exFlaggedNum 0, exNum 1, exMine], [exNum 0, exNum 0, exNum 1, exNum 1]]

/-- The state `CSPSolver::solve` reaches on `exGridC` from start `(0,0)` right
after opening the start cell and running the initial whole-board scan. -/
def exSolverC0 : CSPSolver :=
  CSPSolver.initialScan
    { CSPSolver.new exGridC 1 with board := ((CSPSolver.new exGridC 1).board.openAt (0, 0)).1 }

/-! ### Basic lemmas about cell access and the board operations -/

/-- A coordinate addresses a real cell of the board. -/
def Board.inBounds (b : Board) (v : Coordinate) : Prop :=
  v.1 < b.cells.length ∧ v.2 < (b.cells.getD v.1 []).length

instance (b : Board) (v : Coordinate) : Decidable (b.inBounds v) := by
  unfold Board.inBounds; infer_instance

theorem List.set_getD_self {α : Type} (l : List α) (i : Nat) (d : α) (h : i < l.length) :
    l.set i (l.getD i d) = l := by
  apply List.ext_getElem?
  intro j
  by_cases hij : i = j
  · subst hij
    simp [List.getElem?_set_self', List.getD_eq_getElem?_getD, List.getElem?_eq_getElem h]
  · rw [List.getElem?_set_ne hij]

theorem getCell_modifyCell (b : Board) (w v : Coordinate) (f : BoardCell → BoardCell) :
    (b.modifyCell w f).getCell v =
      if v = w ∧ b.inBounds w then f (b.getCell v) else b.getCell v := by
  rcases v with ⟨v1, v2⟩
  rcases w with ⟨w1, w2⟩
  unfold Board.modifyCell Board.getCell Board.inBounds
  simp only [List.getD_eq_getElem?_getD, List.getElem?_set, Prod.mk.injEq]
  by_cases h1 : w1 = v1
  case neg => rw [if_neg h1, if_neg (fun hcon => h1 hcon.1.1.symm)]
  subst h1
  rw [if_pos rfl]
  by_cases hr : w1 < b.cells.length
  case neg =>
    rw [if_neg hr, if_neg (fun hcon => hr hcon.2.1), List.getElem?_eq_none (le_of_not_lt hr)]
  rw [if_pos hr]
  simp only [List.getElem?_eq_getElem hr, Option.getD_some]
  by_cases h2 : w2 = v2
  case neg =>
    rw [List.getElem?_set_ne (fun h => h2 h), if_neg (fun hcon => h2 hcon.1.2.symm)]
  subst h2
  rw [List.getElem?_set_self']
  by_cases hc : w2 < (b.cells[w1]).length
  · rw [List.getElem?_eq_getElem hc]
    rw [if_pos (by exact ⟨by simp, hr, hc⟩)]
    rfl
  · rw [List.getElem?_eq_none (le_of_not_lt hc), if_neg (fun hcon => hc hcon.2.2)]
    rfl

theorem modifyCell_unflagged (b : Board) (w : Coordinate) (f : BoardCell → BoardCell) :
    (b.modifyCell w f).unflagged_mines = b.unflagged_mines := rfl

theorem modifyCell_unknown (b : Board) (w : Coordinate) (f : BoardCell → BoardCell) :
    (b.modifyCell w f).unknown = b.unknown := rfl

/-- Folding a step function that preserves an observation preserves it. -/
theorem foldl_obs_eq {α β γ : Type} (f : β → α → β) (obs : β → γ)
    (l : List α) (b : β) (h : ∀ acc x, obs (f acc x) = obs acc) :
    obs (l.foldl f b) = obs b := by
  induction l generalizing b with
  | nil => rfl
  | cons x xs ih => rw [List.foldl_cons, ih, h]

theorem getCell_proj_modifyCell {γ : Type} (p : BoardCell → γ) (b : Board) (w v : Coordinate)
    (f : BoardCell → BoardCell) (hp : ∀ c, p (f c) = p c) :
    p ((b.modifyCell w f).getCell v) = p (b.getCell v) := by
  rw [getCell_modifyCell]
  split
  · exact hp _
  · rfl

/-- The shape of the board: its row lengths. -/
def Board.dims (b : Board) : List Nat := b.cells.map List.length

theorem getD_map_length (l : List (List BoardCell)) (i : Nat) :
    (l.map List.length).getD i 0 = (l.getD i []).length := by
  induction l generalizing i with
  | nil => rfl
  | cons x xs ih =>
    cases i with
    | zero => rfl
    | succ j => exact ih j

theorem inBounds_iff_dims (b : Board) (v : Coordinate) :
    b.inBounds v ↔ v.1 < b.dims.length ∧ v.2 < b.dims.getD v.1 0 := by
  unfold Board.inBounds Board.dims
  rw [List.length_map, getD_map_length]

theorem inBounds_congr {b b' : Board} (h : b'.dims = b.dims) (v : Coordinate) :
    b'.inBounds v ↔ b.inBounds v := by
  rw [inBounds_iff_dims, inBounds_iff_dims, h]

theorem dims_modifyCell (b : Board) (w : Coordinate) (f : BoardCell → BoardCell) :
    (b.modifyCell w f).dims = b.dims := by
  unfold Board.modifyCell Board.dims
  simp only
  by_cases h1 : w.1 < b.cells.length
  · rw [List.map_set]
    rw [List.length_set]
    conv_rhs => rw [← List.set_getD_self (b.cells.map List.length) w.1 0 (by simpa using h1)]
    rw [getD_map_length]
  · rw [List.set_eq_of_length_le (by omega)]

theorem dims_foldl {α : Type} (f : Board → α → Board) (l : List α) (b : Board)
    (h : ∀ acc x, (f acc x).dims = acc.dims) : (l.foldl f b).dims = b.dims :=
  foldl_obs_eq f Board.dims l b h

/-- `dims` only looks at `cells`. -/
theorem dims_mk_cells (u c m : Int) (bx : Board) :
    (Board.mk u c m bx.cells).dims = bx.dims := rfl

/-- The incrementing neighbor fold inside `set_state` only touches
`boundary_level`s. -/
theorem dims_boundary_foldl_add (l : List Coordinate) (b0 : Board) :
    (l.foldl
      (fun acc n =>
        if (acc.getCell n).state = UNKNOWN then
          acc.modifyCell n (fun c => { c with boundary_level := c.boundary_level + 1 })
        else acc)
      b0).dims = b0.dims :=
  dims_foldl _ _ _ (fun acc n => by
    split
    · exact dims_modifyCell ..
    · rfl)

/-- The decrementing neighbor fold inside `set_state` only touches
`boundary_level`s. -/
theorem dims_boundary_foldl_sub (l : List Coordinate) (b0 : Board) :
    (l.foldl
      (fun acc n =>
        if (acc.getCell n).state = UNKNOWN then
          acc.modifyCell n (fun c => { c with boundary_level := c.boundary_level - 1 })
        else acc)
      b0).dims = b0.dims :=
  dims_foldl _ _ _ (fun acc n => by
    split
    · exact dims_modifyCell ..
    · rfl)

theorem dims_set_state (b : Board) (w : Coordinate) (st : Int) :
    (b.set_state w st).dims = b.dims := by
  simp only [Board.set_state]
  split_ifs <;>
    simp only [dims_mk_cells, dims_boundary_foldl_add, dims_boundary_foldl_sub, dims_modifyCell]

theorem getCell_mk_cells (u c m : Int) (bx : Board) (v : Coordinate) :
    (Board.mk u c m bx.cells).getCell v = bx.getCell v := rfl

theorem unflagged_mk_cells (u c m : Int) (bx : Board) :
    (Board.mk u c m bx.cells).unflagged_mines = m := rfl

/-- State of a cell is untouched by a `boundary_level`-only update. -/
theorem state_modify_boundary (b : Board) (w v : Coordinate) (z : Int) :
    ((b.modifyCell w (fun c => { c with boundary_level := z })).getCell v).state =
      (b.getCell v).state :=
  getCell_proj_modifyCell BoardCell.state b w v _ (fun _ => rfl)

theorem state_boundary_foldl_add (l : List Coordinate) (b0 : Board) (v : Coordinate) :
    ((l.foldl
      (fun acc n =>
        if (acc.getCell n).state = UNKNOWN then
          acc.modifyCell n (fun c => { c with boundary_level := c.boundary_level + 1 })
        else acc)
      b0).getCell v).state = (b0.getCell v).state :=
  foldl_obs_eq _ (fun bd => (bd.getCell v).state) l b0 (fun acc n => by
    split
    · exact getCell_proj_modifyCell BoardCell.state acc n v _ (fun _ => rfl)
    · rfl)

theorem state_boundary_foldl_sub (l : List Coordinate) (b0 : Board) (v : Coordinate) :
    ((l.foldl
      (fun acc n =>
        if (acc.getCell n).state = UNKNOWN then
          acc.modifyCell n (fun c => { c with boundary_level := c.boundary_level - 1 })
        else acc)
      b0).getCell v).state = (b0.getCell v).state :=
  foldl_obs_eq _ (fun bd => (bd.getCell v).state) l b0 (fun acc n => by
    split
    · exact getCell_proj_modifyCell BoardCell.state acc n v _ (fun _ => rfl)
    · rfl)

/-- After `set_state w st` the cell at `w` carries resolution `st`. -/
theorem state_set_state_self (b : Board) (w : Coordinate) (st : Int) (hw : b.inBounds w) :
    ((b.set_state w st).getCell w).state = st := by
  simp only [Board.set_state]
  split_ifs with h0 <;>
    first
    | exact h0
    | (simp only [getCell_mk_cells, state_boundary_foldl_add, state_boundary_foldl_sub,
        state_modify_boundary]
       rw [getCell_modifyCell, if_pos (by exact ⟨rfl, hw⟩)])

/-- `set_state w st` leaves every other cell's resolution unchanged. -/
theorem state_set_state_ne (b : Board) (w v : Coordinate) (st : Int) (h : v ≠ w) :
    ((b.set_state w st).getCell v).state = (b.getCell v).state := by
  simp only [Board.set_state]
  split_ifs <;>
    first
    | rfl
    | (simp only [getCell_mk_cells, state_boundary_foldl_add, state_boundary_foldl_sub,
        state_modify_boundary]
       rw [getCell_modifyCell, if_neg (fun hc => h hc.1)]
       try rfl)

theorem cell_modify_boundary (b : Board) (w v : Coordinate) (z : Int) :
    ((b.modifyCell w (fun c => { c with boundary_level := z })).getCell v).cell =
      (b.getCell v).cell :=
  getCell_proj_modifyCell BoardCell.cell b w v _ (fun _ => rfl)

theorem cell_modify_state (b : Board) (w v : Coordinate) (st : Int) :
    ((b.modifyCell w (fun c => { c with state := st })).getCell v).cell = (b.getCell v).cell :=
  getCell_proj_modifyCell BoardCell.cell b w v _ (fun _ => rfl)

theorem cell_boundary_foldl_add (l : List Coordinate) (b0 : Board) (v : Coordinate) :
    ((l.foldl
      (fun acc n =>
        if (acc.getCell n).state = UNKNOWN then
          acc.modifyCell n (fun c => { c with boundary_level := c.boundary_level + 1 })
        else acc)
      b0).getCell v).cell = (b0.getCell v).cell :=
  foldl_obs_eq _ (fun bd => (bd.getCell v).cell) l b0 (fun acc n => by
    split
    · exact getCell_proj_modifyCell BoardCell.cell acc n v _ (fun _ => rfl)
    · rfl)

theorem cell_boundary_foldl_sub (l : List Coordinate) (b0 : Board) (v : Coordinate) :
    ((l.foldl
      (fun acc n =>
        if (acc.getCell n).state = UNKNOWN then
          acc.modifyCell n (fun c => { c with boundary_level := c.boundary_level - 1 })
        else acc)
      b0).getCell v).cell = (b0.getCell v).cell :=
  foldl_obs_eq _ (fun bd => (bd.getCell v).cell) l b0 (fun acc n => by
    split
    · exact getCell_proj_modifyCell BoardCell.cell acc n v _ (fun _ => rfl)
    · rfl)

/-- `set_state` never touches the mirrored game cell. -/
theorem cell_set_state (b : Board) (w v : Coordinate) (st : Int) :
    ((b.set_state w st).getCell v).cell = (b.getCell v).cell := by
  simp only [Board.set_state]
  split_ifs <;>
    simp only [getCell_mk_cells, cell_boundary_foldl_add, cell_boundary_foldl_sub,
      cell_modify_boundary, cell_modify_state]

theorem test_modify_boundary (b : Board) (w v : Coordinate) (z : Int) :
    ((b.modifyCell w (fun c => { c with boundary_level := z })).getCell v).test_assignment =
      (b.getCell v).test_assignment :=
  getCell_proj_modifyCell BoardCell.test_assignment b w v _ (fun _ => rfl)

theorem test_modify_state (b : Board) (w v : Coordinate) (st : Int) :
    ((b.modifyCell w (fun c => { c with state := st })).getCell v).test_assignment =
      (b.getCell v).test_assignment :=
  getCell_proj_modifyCell BoardCell.test_assignment b w v _ (fun _ => rfl)

theorem test_boundary_foldl_add (l : List Coordinate) (b0 : Board) (v : Coordinate) :
    ((l.foldl
      (fun acc n =>
        if (acc.getCell n).state = UNKNOWN then
          acc.modifyCell n (fun c => { c with boundary_level := c.boundary_level + 1 })
        else acc)
      b0).getCell v).test_assignment = (b0.getCell v).test_assignment :=
  foldl_obs_eq _ (fun bd => (bd.getCell v).test_assignment) l b0 (fun acc n => by
    split
    · exact getCell_proj_modifyCell BoardCell.test_assignment acc n v _ (fun _ => rfl)
    · rfl)

theorem test_boundary_foldl_sub (l : List Coordinate) (b0 : Board) (v : Coordinate) :
    ((l.foldl
      (fun acc n =>
        if (acc.getCell n).state = UNKNOWN then
          acc.modifyCell n (fun c => { c with boundary_level := c.boundary_level - 1 })
        else acc)
      b0).getCell v).test_assignment = (b0.getCell v).test_assignment :=
  foldl_obs_eq _ (fun bd => (bd.getCell v).test_assignment) l b0 (fun acc n => by
    split
    · exact getCell_proj_modifyCell BoardCell.test_assignment acc n v _ (fun _ => rfl)
    · rfl)

/-- `set_state` never touches a trial assignment. -/
theorem test_set_state (b : Board) (w v : Coordinate) (st : Int) :
    ((b.set_state w st).getCell v).test_assignment = (b.getCell v).test_assignment := by
  simp only [Board.set_state]
  split_ifs <;>
    simp only [getCell_mk_cells, test_boundary_foldl_add, test_boundary_foldl_sub,
      test_modify_boundary, test_modify_state]

theorem unflagged_boundary_foldl_add (l : List Coordinate) (b0 : Board) :
    (l.foldl
      (fun acc n =>
        if (acc.getCell n).state = UNKNOWN then
          acc.modifyCell n (fun c => { c with boundary_level := c.boundary_level + 1 })
        else acc)
      b0).unflagged_mines = b0.unflagged_mines :=
  foldl_obs_eq _ Board.unflagged_mines l b0 (fun acc n => by split <;> rfl)

theorem unflagged_boundary_foldl_sub (l : List Coordinate) (b0 : Board) :
    (l.foldl
      (fun acc n =>
        if (acc.getCell n).state = UNKNOWN then
          acc.modifyCell n (fun c => { c with boundary_level := c.boundary_level - 1 })
        else acc)
      b0).unflagged_mines = b0.unflagged_mines :=
  foldl_obs_eq _ Board.unflagged_mines l b0 (fun acc n => by split <;> rfl)

/-- `set_state` leaves the unflagged-mine counter alone. -/
theorem unflagged_set_state (b : Board) (w : Coordinate) (st : Int) :
    (b.set_state w st).unflagged_mines = b.unflagged_mines := by
  simp only [Board.set_state]
  split_ifs <;>
    simp only [unflagged_mk_cells, unflagged_boundary_foldl_add, unflagged_boundary_foldl_sub,
      modifyCell_unflagged]

theorem state_modify_flagcell (b : Board) (w v : Coordinate) :
    ((b.modifyCell w (fun c =>
      { c with cell := { c.cell with state := CellState.Flagged } })).getCell v).state =
      (b.getCell v).state :=
  getCell_proj_modifyCell BoardCell.state b w v _ (fun _ => rfl)

theorem state_modify_opencell (b : Board) (w v : Coordinate) :
    ((b.modifyCell w (fun c =>
      { c with cell := { c.cell with state := CellState.Open } })).getCell v).state =
      (b.getCell v).state :=
  getCell_proj_modifyCell BoardCell.state b w v _ (fun _ => rfl)

theorem dims_flag (b : Board) (w : Coordinate) : (b.flag w).dims = b.dims := by
  simp only [Board.flag]
  rw [dims_set_state, dims_mk_cells]
  exact dims_modifyCell ..

theorem flag_unflagged (b : Board) (w : Coordinate) :
    (b.flag w).unflagged_mines = b.unflagged_mines - 1 := by
  simp only [Board.flag]
  rw [unflagged_set_state]
  rfl

/-- `Board::flag` marks the flagged cell on the ledger. -/
theorem state_flag_self (b : Board) (w : Coordinate) (hw : b.inBounds w) :
    ((b.flag w).getCell w).state = MARKED := by
  simp only [Board.flag]
  apply state_set_state_self
  have hd : (Board.mk
      (b.modifyCell w (fun c => { c with cell := { c.cell with state := CellState.Flagged } })).unknown
      (b.modifyCell w (fun c => { c with cell := { c.cell with state := CellState.Flagged } })).clear
      ((b.modifyCell w (fun c => { c with cell := { c.cell with state := CellState.Flagged } })).unflagged_mines - 1)
      (b.modifyCell w (fun c => { c with cell := { c.cell with state := CellState.Flagged } })).cells).dims = b.dims := by
    rw [dims_mk_cells]
    exact dims_modifyCell ..
  exact (inBounds_congr hd w).mpr hw

/-- `Board::flag` leaves every other cell's resolution unchanged. -/
theorem state_flag_ne (b : Board) (w v : Coordinate) (h : v ≠ w) :
    ((b.flag w).getCell v).state = (b.getCell v).state := by
  simp only [Board.flag]
  rw [state_set_state_ne _ _ _ _ h, getCell_mk_cells, state_modify_flagcell]

theorem dims_open_cell (b : Board) (w : Coordinate) : (b.open_cell w).1.dims = b.dims := by
  simp only [Board.open_cell]
  split
  · rfl
  · split
    · exact dims_modifyCell ..
    · exact dims_modifyCell ..

theorem dims_openAt (b : Board) (w : Coordinate) : (b.openAt w).1.dims = b.dims := by
  simp only [Board.openAt]
  rw [dims_set_state]
  exact dims_open_cell ..

/-- `Board::open` records the returned local value as the cell's resolution. -/
theorem state_openAt_self (b : Board) (w : Coordinate) (hw : b.inBounds w) :
    (((b.openAt w).1).getCell w).state = (b.openAt w).2 := by
  simp only [Board.openAt]
  apply state_set_state_self
  exact (inBounds_congr (dims_open_cell b w) w).mpr hw

/-- `Board::open` leaves every other cell's resolution unchanged. -/
theorem state_openAt_ne (b : Board) (w v : Coordinate) (h : v ≠ w) :
    (((b.openAt w).1).getCell v).state = (b.getCell v).state := by
  simp only [Board.openAt]
  rw [state_set_state_ne _ _ _ _ h]
  simp only [Board.open_cell]
  split
  · rfl
  · split
    · exact state_modify_opencell ..
    · exact state_modify_opencell ..

/-- `Board::open` never returns the `UNKNOWN` sentinel. -/
theorem openAt_snd_ne_unknown (b : Board) (w : Coordinate) : (b.openAt w).2 ≠ UNKNOWN := by
  simp only [Board.openAt, Board.open_cell]
  split
  · show MARKED ≠ UNKNOWN
    decide
  · split
    · show MINE ≠ UNKNOWN
      decide
    · rename_i n _
      show (n : Int) ≠ UNKNOWN
      simp only [UNKNOWN]
      omega

/-! ### Claim C9 -/

/-- C9: `Board::flag` unconditionally decrements the unsigned `unflagged_mines`
counter, so a call needs `unflagged_mines ≥ 1`; with `unflagged_mines = 0` the
overflow-checked `usize` subtraction it performs takes the error branch
(`usize_checked_sub … = none`) instead of completing. -/
theorem flag_decrements_unflagged_unconditionally (b : Board) (w : Coordinate) (n : Nat) :
    (b.flag w).unflagged_mines = b.unflagged_mines - 1 ∧
      (usize_checked_sub n 1 = none ↔ n = 0) := by
  refine ⟨flag_unflagged b w, ?_⟩
  unfold usize_checked_sub
  split <;> simp <;> omega

/-! ### Claim C6 -/

/-- C6 counterexample: on `exGridB`, started from `(0,2)`, the first iteration
of `CSPSolver::solve` ends in the far-open `continue` with cell `(0,1)` still
`Constrained` on the ledger while being a variable of two distinct live
constraints (the start constraint over `{(0,1),(0,3)}` and the fresh
constraint over `{(0,1)}`), refuting "exactly one constraint". -/
theorem constrained_cell_in_two_constraints_counterexample :
    (CSPSolver.solve_step exSolverB0).map (fun r =>
        (r.state.constraints.map Constraint.vars, (r.state.board.getCell (0, 1)).state,
          r.isContinue)) =
      some ([[(0, 1), (0, 3)], [(0, 1)], [(0, 3)]], CONSTRAINED, true) := by
  decide

/-- C6 amended: a `Constrained` cell may be a variable of several live
constraints at once; what holds is that `Constraint::coupled_with` detects
sharing: it returns true exactly when the two constraints have a common
variable. -/
theorem coupled_with_iff_shared_variable (a b : Constraint) :
    a.coupled_with b = true ↔ ∃ v, v ∈ a.vars ∧ v ∈ b.vars := by
  unfold Constraint.coupled_with
  simp only [List.any_eq_true, List.contains_iff_exists_mem_beq, beq_iff_eq]
  constructor
  · rintro ⟨v, hvb, w, hwa, hw⟩
    exact ⟨w, hwa, hw ▸ hvb⟩
  · rintro ⟨v, hva, hvb⟩
    exact ⟨v, hvb, v, hva, rfl⟩

/-! ### Claim C1 -/

/-- C1 counterexample: on `exGridA` from start `(0,4)`, the loop's only
iteration flags `(0,3)` during simplification — step (a) changes the ledger
(`CONSTRAINED` → `MARKED`) — the board is not done, and the loop nevertheless
takes the unconditional `break`: `solve` returns `false` without performing
another iteration, refuting "whenever any of these steps changed the ledger in
the current iteration, the loop performs another iteration". -/
theorem solve_stops_despite_ledger_change_counterexample :
    (CSPSolver.solve_step exSolverA0).map (fun r =>
        (r.isStop, (r.state.board.getCell (0, 3)).state, r.state.board.done)) =
      some (true, MARKED, false) ∧
    (exSolverA0.board.getCell (0, 3)).state = CONSTRAINED ∧
    CSPSolver.solve (CSPSolver.new exGridA 2) (0, 4) 10 = some false := by
  exact ⟨by decide, by decide, by decide⟩

/-- The state the loop body lands in on `exGridA` (used by the witness). -/
def exSolverA1 : CSPSolver :=
  ((CSPSolver.solve_step exSolverA0).getD (LoopStep.stop default)).state

/-- C1 amended: the main loop runs until the ledger is fully resolved, but it
performs another iteration only when the far-open branch fired
(`continue_far`); when the loop body ends in the unconditional `break`
(`stop`), `solve` immediately returns the current `done` status — whether or
not simplification or marking changed the ledger in that iteration. -/
theorem solve_loop_control (fuel : Nat) (s : CSPSolver) :
    (s.board.done = true → CSPSolver.solveLoop (fuel + 1) s = some true) ∧
    (∀ s1, s.board.done = false → s.solve_step = some (LoopStep.done_after_simplify s1) →
      CSPSolver.solveLoop (fuel + 1) s = some s1.board.done) ∧
    (∀ s1, s.board.done = false → s.solve_step = some (LoopStep.continue_far s1) →
      CSPSolver.solveLoop (fuel + 1) s = CSPSolver.solveLoop fuel s1) ∧
    (∀ s1, s.board.done = false → s.solve_step = some (LoopStep.stop s1) →
      CSPSolver.solveLoop (fuel + 1) s = some s1.board.done) := by
  refine ⟨fun h => by simp [CSPSolver.solveLoop, h],
    fun s1 h hs => by simp [CSPSolver.solveLoop, h, hs],
    fun s1 h hs => by simp [CSPSolver.solveLoop, h, hs],
    fun s1 h hs => by simp [CSPSolver.solveLoop, h, hs]⟩

/-- Witness for the amended C1 at a concrete stop: the `exGridA` run. -/
theorem solve_loop_control_witness :
    exSolverA0.board.done = false ∧
      CSPSolver.solve_step exSolverA0 = some (LoopStep.stop exSolverA1) ∧
      CSPSolver.solveLoop 4 exSolverA0 = some exSolverA1.board.done :=
  ⟨by decide, by decide,
    (solve_loop_control 3 exSolverA0).2.2.2 exSolverA1 (by decide) (by decide)⟩

/-! ### Claim C7 -/

theorem swapRemove_nil {α : Type} [Inhabited α] (j : Nat) : swapRemove ([] : List α) j = [] := rfl

theorem swapRemove_cons_succ {α : Type} [Inhabited α] (a : α) (t : List α) (j : Nat)
    (ht : t ≠ []) : swapRemove (a :: t) (j + 1) = a :: swapRemove t j := by
  unfold swapRemove
  rw [List.getLast?_eq_getLast _ (by simp), List.getLast_cons ht,
    ← List.getLast?_eq_getLast t ht]
  simp only [List.set_cons_succ]
  rw [List.dropLast_cons_of_ne_nil]
  intro hcon
  exact ht (by simpa using congrArg List.length hcon)

theorem swapRemove_perm_eraseIdx {α : Type} [Inhabited α] :
    ∀ (l : List α) (j : Nat), j < l.length → (swapRemove l j).Perm (l.eraseIdx j)
  | [], j, h => by simp at h
  | a :: t, 0, _ => by
    by_cases ht : t = []
    · subst ht
      exact List.Perm.refl _
    · unfold swapRemove
      rw [List.getLast?_eq_getLast _ (by simp), List.getLast_cons ht]
      simp only [List.set_cons_zero, List.eraseIdx_cons_zero]
      rw [List.dropLast_cons_of_ne_nil ht]
      have h2 : (t.dropLast ++ [t.getLast ht]).Perm (t.getLast ht :: t.dropLast) :=
        List.perm_append_singleton _ _
      rw [List.dropLast_append_getLast ht] at h2
      exact h2.symm
  | a :: t, j + 1, h => by
    have ht : t ≠ [] := by
      intro hcon
      subst hcon
      simp at h
    rw [swapRemove_cons_succ a t j ht, List.eraseIdx_cons_succ]
    exact (swapRemove_perm_eraseIdx t j (by simpa using h)).cons a

theorem findIdx?_cons_elim {α : Type} (p : α → Bool) (a : α) (t : List α) :
    (a :: t).findIdx? p = if p a then some 0 else (t.findIdx? p).map (fun i => i + 1) := by
  rw [List.findIdx?_cons, List.findIdx?_succ]

theorem findIdx?_some_lt {α : Type} :
    ∀ (l : List α) (p : α → Bool) (j : Nat), l.findIdx? p = some j → j < l.length
  | [], p, j, h => by simp [List.findIdx?_nil] at h
  | a :: t, p, j, h => by
    rw [findIdx?_cons_elim] at h
    by_cases hp : p a
    · rw [if_pos hp] at h
      simp only [Option.some.injEq] at h
      simp only [List.length_cons]
      omega
    · rw [if_neg hp] at h
      cases ht : t.findIdx? p with
      | none => rw [ht] at h; exact absurd h (by simp)
      | some k =>
        rw [ht] at h
        simp at h
        have hk := findIdx?_some_lt t p k ht
        simp only [List.length_cons]
        omega

/-- The per-variable removal of `Constraint::remove_vars` is, up to
permutation, `List.erase`. -/
theorem removeFirst_perm_erase (l : List Coordinate) (v : Coordinate) :
    (match l.findIdx? (fun x => x = v) with
      | some j => swapRemove l j
      | none => l).Perm (l.erase v) := by
  induction l with
  | nil => exact List.Perm.refl _
  | cons a t ih =>
    rw [findIdx?_cons_elim]
    by_cases hav : a = v
    · rw [if_pos (by simp [hav])]
      subst hav
      rw [List.erase_cons_head]
      show (swapRemove (a :: t) 0).Perm t
      have h0 := swapRemove_perm_eraseIdx (a :: t) 0 (by simp)
      rwa [List.eraseIdx_cons_zero] at h0
    · rw [if_neg (by simp [hav]), List.erase_cons_tail (by simpa using hav)]
      cases ht : t.findIdx? (fun x => x = v) with
      | none =>
        rw [ht] at ih
        exact ih.cons a
      | some j =>
        rw [ht] at ih
        have hj : j < t.length := findIdx?_some_lt t _ j ht
        have ht0 : t ≠ [] := by
          intro hcon
          subst hcon
          simp at hj
        show (swapRemove (a :: t) (j + 1)).Perm (a :: t.erase v)
        rw [swapRemove_cons_succ a t j ht0]
        exact ih.cons a

/-- `List.Perm.erase` for the `BEq` form of `List.erase` (the form every other
erase lemma used here is stated with). -/
theorem perm_erase_beq {α : Type} [BEq α] [LawfulBEq α] (a : α) {l1 l2 : List α}
    (h : l1.Perm l2) : (l1.erase a).Perm (l2.erase a) := by
  induction h with
  | nil => exact List.Perm.refl _
  | cons x h ih =>
    rw [List.erase_cons, List.erase_cons]
    split
    · assumption
    · exact ih.cons x
  | swap x y l =>
    simp only [List.erase_cons]
    by_cases hy : (y == a) = true <;> by_cases hx : (x == a) = true <;>
      simp only [hy, hx, if_true, if_false]
    all_goals
      first
      | exact List.Perm.refl _
      | exact List.Perm.swap x y _
      | (have hxy : x = y := by rw [eq_of_beq ‹(x == a) = true›, eq_of_beq ‹(y == a) = true›]
         subst hxy
         exact List.Perm.refl _)
  | trans _ _ ih1 ih2 => exact ih1.trans ih2

theorem perm_diff_right_beq {α : Type} [BEq α] [LawfulBEq α] (t : List α) {l1 l2 : List α}
    (h : l1.Perm l2) : (l1.diff t).Perm (l2.diff t) := by
  induction t generalizing l1 l2 with
  | nil => simpa using h
  | cons a t ih =>
    rw [List.diff_cons, List.diff_cons]
    exact ih (perm_erase_beq a h)

/-- `Constraint::remove_vars` computes `List.diff` up to permutation. -/
theorem remove_vars_perm_diff (l other : List Coordinate) :
    (Constraint.remove_vars l other).Perm (l.diff other) := by
  induction other generalizing l with
  | nil => simp [Constraint.remove_vars]
  | cons v rest ih =>
    rw [List.diff_cons]
    unfold Constraint.remove_vars
    rw [List.foldl_cons]
    have h1 : (match l.findIdx? (fun x => x = v) with
        | some j => swapRemove l j
        | none => l).Perm (l.erase v) := removeFirst_perm_erase l v
    have h2 := ih (match l.findIdx? (fun x => x = v) with
        | some j => swapRemove l j
        | none => l)
    unfold Constraint.remove_vars at h2
    exact h2.trans (perm_diff_right_beq rest h1)

theorem subset_check_iff (l other : List Coordinate) (hlen : other.length ≤ l.length) :
    Constraint.subset_check l other = true ↔ ∀ v ∈ other, v ∈ l := by
  unfold Constraint.subset_check
  by_cases hl : l = []
  · subst hl
    have : other = [] := List.eq_nil_of_length_eq_zero (by simpa using hlen)
    subst this
    simp
  · simp [List.all_eq_true, List.isEmpty_iff, hl]

theorem length_diff_of_subset (l d : List Coordinate) (hd : d.Nodup)
    (hsub : ∀ v ∈ d, v ∈ l) : (l.diff d).length = l.length - d.length := by
  induction d generalizing l with
  | nil => simp
  | cons v rest ih =>
    rw [List.diff_cons]
    have hv : v ∈ l := hsub v (by simp)
    have hnotin : v ∉ rest := (List.nodup_cons.mp hd).1
    rw [ih (l.erase v) (List.nodup_cons.mp hd).2 (fun w hw => by
      rw [List.mem_erase_of_ne (fun hwv : w = v => hnotin (hwv ▸ hw))]
      exact hsub w (by simp [hw]))]
    rw [List.length_erase_of_mem hv]
    have h1 : 1 ≤ l.length := by
      cases l
      · simp at hv
      · simp
    simp only [List.length_cons]
    omega

/-- The two-case specification of `Constraint::simplify_core` for a pair with
`other` no longer than `this`. -/
theorem simplify_core_spec (this other : Constraint)
    (hlen : other.vars.length ≤ this.vars.length) (hno : other.vars.Nodup) :
    ((Constraint.simplify_core this other).2 = true ↔ ∀ v ∈ other.vars, v ∈ this.vars) ∧
    ((Constraint.simplify_core this other).2 = false →
      (Constraint.simplify_core this other).1 = this) ∧
    ((Constraint.simplify_core this other).2 = true →
      (Constraint.simplify_core this other).1.vars.Perm (this.vars.diff other.vars) ∧
      (Constraint.simplify_core this other).1.constant = this.constant - other.constant ∧
      (other.vars ≠ [] →
        (Constraint.simplify_core this other).1.vars.length < this.vars.length)) := by
  unfold Constraint.simplify_core
  by_cases hc : Constraint.subset_check this.vars other.vars
  · rw [if_neg (by simp [hc])]
    have hsub : ∀ v ∈ other.vars, v ∈ this.vars := (subset_check_iff _ _ hlen).mp hc
    refine ⟨by simpa using hsub, by simp, fun _ => ?_⟩
    have hperm := remove_vars_perm_diff this.vars other.vars
    refine ⟨hperm, rfl, fun hne => ?_⟩
    have hlen2 := hperm.length_eq
    rw [length_diff_of_subset _ _ hno hsub] at hlen2
    have hone : 1 ≤ other.vars.length := by
      cases h : other.vars
      · exact absurd h hne
      · simp [h]
    simp only []
    omega
  · rw [if_pos (by simpa using hc)]
    refine ⟨?_, fun _ => rfl, fun hcon => absurd hcon (by simp)⟩
    constructor
    · intro hfalse
      exact absurd hfalse (by simp)
    · intro hsub
      exact absurd ((subset_check_iff _ _ hlen).mpr hsub) hc

/-- C7 counterexample: `simplify` applied to a one-variable constraint and an
empty constraint reports `true` while changing neither constraint (the empty
variable set passes the containment scan vacuously and the removal loop and
constant subtraction do nothing), refuting "returns true iff a change to
either constraint occurred". -/
theorem simplify_true_without_change_counterexample :
    Constraint.simplify { Constraint.new with vars := [(0, 0)], constant := 1 } Constraint.new =
      ({ Constraint.new with vars := [(0, 0)], constant := 1 }, Constraint.new, true) := by
  decide

/-- C7 amended: for duplicate-free constraints, `Constraint::simplify` returns
true exactly when the smaller variable set is contained in the larger one (so
a call whose smaller side is empty returns true without any change); on false
both constraints are unchanged; on true the larger constraint loses exactly
the smaller's variables (its variable list becomes, up to permutation, the
list difference) and the smaller's constant, the smaller constraint is
unchanged, and when the smaller side is nonempty the larger's variable list
strictly shrinks — a real change. -/
theorem simplify_subset_characterization (a b : Constraint)
    (hna : a.vars.Nodup) (hnb : b.vars.Nodup) :
    ((Constraint.simplify a b).2.2 = true ↔
      (if a.vars.length < b.vars.length then ∀ v ∈ a.vars, v ∈ b.vars
       else ∀ v ∈ b.vars, v ∈ a.vars)) ∧
    ((Constraint.simplify a b).2.2 = false → Constraint.simplify a b = (a, b, false)) ∧
    ((Constraint.simplify a b).2.2 = true →
      (if a.vars.length < b.vars.length then
        (Constraint.simplify a b).1 = a ∧
        ((Constraint.simplify a b).2.1.vars).Perm (b.vars.diff a.vars) ∧
        (Constraint.simplify a b).2.1.constant = b.constant - a.constant ∧
        (a.vars ≠ [] → (Constraint.simplify a b).2.1.vars.length < b.vars.length)
      else
        (Constraint.simplify a b).2.1 = b ∧
        ((Constraint.simplify a b).1.vars).Perm (a.vars.diff b.vars) ∧
        (Constraint.simplify a b).1.constant = a.constant - b.constant ∧
        (b.vars ≠ [] → (Constraint.simplify a b).1.vars.length < a.vars.length))) := by
  by_cases hlen : a.vars.length < b.vars.length
  · have spec := simplify_core_spec b a (le_of_lt hlen) hna
    unfold Constraint.simplify
    rw [if_pos hlen, if_pos hlen, if_pos hlen]
    refine ⟨spec.1, fun hf => ?_, fun ht => ⟨rfl, (spec.2.2 ht).1, (spec.2.2 ht).2.1,
      (spec.2.2 ht).2.2⟩⟩
    have h1 := spec.2.1 hf
    show (a, (Constraint.simplify_core b a).1, (Constraint.simplify_core b a).2) = (a, b, false)
    rw [h1, hf]
  · have hlen2 : b.vars.length ≤ a.vars.length := le_of_not_lt hlen
    have spec := simplify_core_spec a b hlen2 hnb
    unfold Constraint.simplify
    rw [if_neg hlen, if_neg hlen, if_neg hlen]
    refine ⟨spec.1, fun hf => ?_, fun ht => ⟨rfl, (spec.2.2 ht).1, (spec.2.2 ht).2.1,
      (spec.2.2 ht).2.2⟩⟩
    have h1 := spec.2.1 hf
    show ((Constraint.simplify_core a b).1, b, (Constraint.simplify_core a b).2) = (a, b, false)
    rw [h1, hf]

/-- Witness for the amended C7 at a concrete pair of constraints. -/
theorem simplify_subset_characterization_witness :
    ((Constraint.simplify { Constraint.new with vars := [(0, 0), (0, 1)], constant := 1 }
        { Constraint.new with vars := [(0, 0)], constant := 1 }).2.2 = true ↔
      (if ([(0, 0), (0, 1)] : List Coordinate).length < ([(0, 0)] : List Coordinate).length then
        ∀ v ∈ ([(0, 0), (0, 1)] : List Coordinate), v ∈ ([(0, 0)] : List Coordinate)
       else ∀ v ∈ ([(0, 0)] : List Coordinate), v ∈ ([(0, 0), (0, 1)] : List Coordinate))) :=
  (simplify_subset_characterization
    { Constraint.new with vars := [(0, 0), (0, 1)], constant := 1 }
    { Constraint.new with vars := [(0, 0)], constant := 1 } (by decide) (by decide)).1

/-! ### Claim C4 -/

theorem swapRemove_take {α : Type} [Inhabited α] (l : List α) (i : Nat) (h : i < l.length) :
    (swapRemove l i).take i = l.take i := by
  unfold swapRemove
  rw [List.dropLast_eq_take, List.length_set, List.take_take,
    min_eq_left (by omega), List.set_take,
    List.set_eq_of_length_le (by rw [List.length_take]; omega)]

theorem swapRemove_drop {α : Type} [Inhabited α] (l : List α) (i : Nat) (h : i < l.length) :
    ((swapRemove l i).drop i).Perm (l.drop (i + 1)) := by
  have hl : l ≠ [] := by
    intro hcon
    subst hcon
    simp at h
  have hlast : l.getLast?.getD default = l.getLast hl := by
    rw [List.getLast?_eq_getLast l hl]
    rfl
  unfold swapRemove
  rw [List.dropLast_eq_take, List.length_set, List.drop_take, List.drop_set]
  rw [if_neg (by omega)]
  simp only [Nat.sub_self]
  rw [List.drop_eq_getElem_cons h]
  cases hd : l.drop (i + 1) with
  | nil =>
    have : l.length - 1 - i = 0 := by
      have := congrArg List.length hd
      simp only [List.length_drop, List.length_nil] at this
      omega
    rw [this]
    simp
  | cons x xs =>
    have hlen2 : l.length - 1 - i = xs.length + 1 := by
      have := congrArg List.length hd
      simp only [List.length_drop, List.length_cons] at this
      omega
    rw [hlen2]
    rw [List.set_cons_zero]
    have hne : l.drop (i + 1) ≠ [] := by rw [hd]; simp
    have hgl : (l.drop (i + 1)).getLast hne = l.getLast hl := List.getLast_drop hne
    -- take (xs.length + 1) of a list of length xs.length + 2 is its dropLast
    have htake : List.take (xs.length + 1) (l.getLast?.getD default :: x :: xs) =
        (l.getLast?.getD default :: x :: xs).dropLast := by
      rw [List.dropLast_eq_take]
      simp
    rw [htake, List.dropLast_cons_of_ne_nil (by simp)]
    have h2 : ((x :: xs).dropLast ++ [(x :: xs).getLast (by simp)]).Perm
        ((x :: xs).getLast (by simp) :: (x :: xs).dropLast) :=
      List.perm_append_singleton _ _
    rw [List.dropLast_append_getLast (by simp : x :: xs ≠ [])] at h2
    have h3 : (x :: xs).getLast (by simp) = l.getLast?.getD default := by
      rw [hlast, ← hgl]
      congr 1
      · exact hd.symm
    rw [h3] at h2
    exact h2.symm

/-- The keep test of the removal loop in
`Constraint::update_and_remove_known_variables`: the variable stays when its
resolution is negative and not `MARKED`. -/
def keepVar (b : Board) (v : Coordinate) : Bool :=
  decide ((b.getCell v).state < 0) && !decide ((b.getCell v).state = MARKED)

/-- The variables the removal loop drops with a constant decrement. -/
def markedVar (b : Board) (v : Coordinate) : Bool :=
  decide ((b.getCell v).state = MARKED)

/-- The descending `swap_remove` loop keeps, up to permutation, exactly the
unresolved variables and subtracts one from the constant per `MARKED`
variable. -/
theorem removeKnownLoop_spec (b : Board) :
    ∀ (i : Nat) (l : List Coordinate) (c : Int), i ≤ l.length →
      (removeKnownLoop b i l c).1.Perm ((l.take i).filter (keepVar b) ++ l.drop i) ∧
      (removeKnownLoop b i l c).2 = c - ((l.take i).filter (markedVar b)).length
  | 0, l, c, _ => by
    constructor
    · simp [removeKnownLoop]
    · simp [removeKnownLoop]
  | i + 1, l, c, h => by
    have hi : i < l.length := by omega
    have hgetd : l.getD i default = l[i] := by
      rw [List.getD_eq_getElem?_getD, List.getElem?_eq_getElem hi]
      rfl
    have htakes : l.take (i + 1) = l.take i ++ [l[i]] := by
      rw [List.take_succ, List.getElem?_eq_getElem hi]
      rfl
    rw [removeKnownLoop, hgetd]
    by_cases h0 : 0 ≤ (b.getCell l[i]).state
    · rw [if_pos h0]
      have hlen : i ≤ (swapRemove l i).length := by
        unfold swapRemove
        simp only [List.length_dropLast, List.length_set]
        omega
      obtain ⟨ih1, ih2⟩ := removeKnownLoop_spec b i (swapRemove l i) c hlen
      rw [swapRemove_take l i hi] at ih1 ih2
      constructor
      · refine ih1.trans ?_
        rw [htakes, List.filter_append]
        have hkeep : List.filter (keepVar b) [l[i]] = [] := by
          rw [List.filter_singleton,
            show keepVar b l[i] = false from by simp [keepVar, MARKED]; omega]
          rfl
        rw [hkeep, List.append_nil]
        exact List.Perm.append_left _ (swapRemove_drop l i hi)
      · rw [ih2, htakes, List.filter_append]
        have hmark : List.filter (markedVar b) [l[i]] = [] := by
          rw [List.filter_singleton,
            show markedVar b l[i] = false from by simp [markedVar, MARKED]; omega]
          rfl
        rw [hmark, List.append_nil]
    · rw [if_neg h0]
      by_cases h1 : (b.getCell l[i]).state = MARKED
      · rw [if_pos h1]
        have hlen : i ≤ (swapRemove l i).length := by
          unfold swapRemove
          simp only [List.length_dropLast, List.length_set]
          omega
        obtain ⟨ih1, ih2⟩ := removeKnownLoop_spec b i (swapRemove l i) (c - 1) hlen
        rw [swapRemove_take l i hi] at ih1 ih2
        constructor
        · refine ih1.trans ?_
          rw [htakes, List.filter_append]
          have hkeep : List.filter (keepVar b) [l[i]] = [] := by
            rw [List.filter_singleton,
              show keepVar b l[i] = false from by simp [keepVar, h1, MARKED]]
            rfl
          rw [hkeep, List.append_nil]
          exact List.Perm.append_left _ (swapRemove_drop l i hi)
        · rw [ih2, htakes, List.filter_append]
          have hmark : List.filter (markedVar b) [l[i]] = [l[i]] := by
            rw [List.filter_singleton,
              show markedVar b l[i] = true from by simp [markedVar, h1, MARKED]]
            rfl
          rw [hmark]
          rw [List.length_append]
          simp only [List.length_cons, List.length_nil]
          push_cast
          ring
      · rw [if_neg h1]
        obtain ⟨ih1, ih2⟩ := removeKnownLoop_spec b i l c (le_of_lt hi)
        constructor
        · refine ih1.trans ?_
          rw [htakes, List.filter_append]
          have hkeep : List.filter (keepVar b) [l[i]] = [l[i]] := by
            rw [List.filter_singleton,
              show keepVar b l[i] = true from by
                simp [keepVar, MARKED]
                refine ⟨by omega, fun hcon => h1 (by rw [hcon]; rfl)⟩]
            rfl
          rw [hkeep, List.drop_eq_getElem_cons hi, List.append_assoc]
          exact List.Perm.refl _
        · rw [ih2, htakes, List.filter_append]
          have hmark : List.filter (markedVar b) [l[i]] = [] := by
            rw [List.filter_singleton,
              show markedVar b l[i] = false from by
                simp [markedVar, MARKED]
                exact fun hcon => h1 (by rw [hcon]; rfl)]
            rfl
          rw [hmark, List.append_nil]

theorem dims_new_constraint (b : Board) (w : Coordinate) :
    (b.new_constraint w).1.dims = b.dims := by
  unfold Board.new_constraint
  split
  · rfl
  · exact foldl_obs_eq _ (fun acc : Constraint × Int × Board => acc.2.2.dims) _ _
      (fun acc n => by
        split
        · split
          · rfl
          · exact dims_set_state ..
        · rfl)

theorem cell_new_constraint (b : Board) (w v : Coordinate) :
    ((b.new_constraint w).1.getCell v).cell = (b.getCell v).cell := by
  unfold Board.new_constraint
  split
  · rfl
  · exact foldl_obs_eq _ (fun acc : Constraint × Int × Board => (acc.2.2.getCell v).cell) _ _
      (fun acc n => by
        split
        · split
          · rfl
          · exact cell_set_state ..
        · rfl)

/-- `Board::new_constraint` builds a constraint exactly for an already-resolved
numbered cell (nonnegative ledger state). -/
theorem new_constraint_isSome (b : Board) (w : Coordinate) :
    (b.new_constraint w).2.isSome = true ↔ ¬((b.getCell w).state < 0) := by
  unfold Board.new_constraint
  split
  · rename_i h
    simp [h]
  · rename_i h
    simp [h]

theorem cont_openAt (b : Board) (w u : Coordinate) :
    (((b.openAt w).1).getCell u).cell.content = (b.getCell u).cell.content := by
  simp only [Board.openAt]
  have h1 := cell_set_state (b.open_cell w).1 w u (b.open_cell w).2
  rw [show (((b.open_cell w).1.set_state w (b.open_cell w).2).getCell u).cell.content =
    (((b.open_cell w).1.getCell u).cell).content from by rw [h1]]
  unfold Board.open_cell
  cases hst : (b.getCell w).cell.state <;> simp only [hst] <;>
    first
    | rfl
    | (cases hcont : (b.getCell w).cell.content <;> simp only [hcont] <;>
        exact getCell_proj_modifyCell (fun c => c.cell.content) b w u _ (fun _ => rfl))

theorem cell_openAt_ne (b : Board) (w u : Coordinate) (h : u ≠ w) :
    (((b.openAt w).1).getCell u).cell = (b.getCell u).cell := by
  simp only [Board.openAt]
  rw [cell_set_state]
  unfold Board.open_cell
  cases hst : (b.getCell w).cell.state <;> simp only [hst] <;>
    first
    | rfl
    | (cases hcont : (b.getCell w).cell.content <;> simp only [hcont] <;>
        rw [getCell_modifyCell, if_neg (fun hc => h hc.1)])

/-- The real-cell effect of `Board::open` at the opened coordinate. -/
theorem cellstate_openAt_self (b : Board) (w : Coordinate) (hw : b.inBounds w) :
    (((b.openAt w).1).getCell w).cell.state =
      (if (b.getCell w).cell.state = CellState.Flagged then CellState.Flagged
       else CellState.Open) := by
  simp only [Board.openAt]
  have h1 := cell_set_state (b.open_cell w).1 w w (b.open_cell w).2
  rw [show (((b.open_cell w).1.set_state w (b.open_cell w).2).getCell w).cell.state =
    (((b.open_cell w).1.getCell w).cell).state from by rw [h1]]
  unfold Board.open_cell
  cases hst : (b.getCell w).cell.state <;> simp only [hst]
  · rw [if_neg (by simp [hst])]
    cases hcont : (b.getCell w).cell.content <;> simp only [hcont] <;>
      rw [getCell_modifyCell, if_pos ⟨rfl, hw⟩]
  · rw [if_neg (by simp [hst])]
    cases hcont : (b.getCell w).cell.content <;> simp only [hcont] <;>
      rw [getCell_modifyCell, if_pos ⟨rfl, hw⟩]
  · rw [if_pos trivial]

/-- The value returned by `Board::open` in terms of the original cell. -/
theorem openAt_snd_spec (b : Board) (w : Coordinate) :
    (b.openAt w).2 =
      (if (b.getCell w).cell.state = CellState.Flagged then MARKED
       else match (b.getCell w).cell.content with
         | CellContent.Mine => MINE
         | CellContent.Number n => (n : Int)) := by
  simp only [Board.openAt, Board.open_cell]
  cases hst : (b.getCell w).cell.state <;> simp only [hst]
  · rw [if_neg (by simp [hst])]
    cases hcont : (b.getCell w).cell.content <;> simp only [hcont]
  · rw [if_neg (by simp [hst])]
    cases hcont : (b.getCell w).cell.content <;> simp only [hcont]
  · rw [if_pos trivial]

theorem openStep_fst (acc : Board × List Constraint) (v : Coordinate) :
    (openStep acc v).1 = ((acc.1.openAt v).1.new_constraint v).1 := by
  simp only [openStep]
  cases h : ((acc.1.openAt v).1.new_constraint v).2 <;> simp only [h]

theorem dims_openStep (acc : Board × List Constraint) (v : Coordinate) :
    (openStep acc v).1.dims = acc.1.dims := by
  rw [openStep_fst, dims_new_constraint, dims_openAt]

theorem cell_openStep_ne (acc : Board × List Constraint) (v u : Coordinate) (h : u ≠ v) :
    ((openStep acc v).1.getCell u).cell = (acc.1.getCell u).cell := by
  rw [openStep_fst, cell_new_constraint, cell_openAt_ne acc.1 v u h]

theorem cellstate_openStep_self (acc : Board × List Constraint) (v : Coordinate)
    (hv : acc.1.inBounds v) :
    ((openStep acc v).1.getCell v).cell.state =
      (if (acc.1.getCell v).cell.state = CellState.Flagged then CellState.Flagged
       else CellState.Open) := by
  rw [openStep_fst]
  have h1 := cell_new_constraint (acc.1.openAt v).1 v v
  rw [show ((((acc.1.openAt v).1.new_constraint v).1.getCell v).cell).state =
    (((acc.1.openAt v).1.getCell v).cell).state from by rw [h1]]
  exact cellstate_openAt_self acc.1 v hv

/-- Once a cell's real state is `Open` or `Flagged`, the safe-opening loop
never changes it again. -/
theorem openFold_pres (l : List Coordinate) :
    ∀ (acc : Board × List Constraint) (v : Coordinate), acc.1.inBounds v →
      ((acc.1.getCell v).cell.state = CellState.Open ∨
        (acc.1.getCell v).cell.state = CellState.Flagged) →
      (((l.foldl openStep acc).1).getCell v).cell.state = (acc.1.getCell v).cell.state := by
  induction l with
  | nil => intro acc v _ _; rw [List.foldl_nil]
  | cons a t ih =>
    intro acc v hv hs
    rw [List.foldl_cons]
    by_cases hva : v = a
    · subst hva
      have hself := cellstate_openStep_self acc v hv
      have hnew : ((openStep acc v).1.getCell v).cell.state = (acc.1.getCell v).cell.state := by
        rw [hself]
        rcases hs with h | h <;> rw [h] <;> simp
      have hv' : (openStep acc v).1.inBounds v :=
        (inBounds_congr (dims_openStep acc v) v).mpr hv
      rw [ih (openStep acc v) v hv' (by rw [hnew]; exact hs), hnew]
    · have hcell : ((openStep acc a).1.getCell v).cell = (acc.1.getCell v).cell :=
        cell_openStep_ne acc a v hva
      have hv' : (openStep acc a).1.inBounds v :=
        (inBounds_congr (dims_openStep acc a) v).mpr hv
      rw [ih (openStep acc a) v hv' (by rw [hcell]; exact hs), hcell]

/-- After the safe-opening loop, every in-bounds variable of the list has been
opened (a flagged cell stays flagged, as in `Board::open`). -/
theorem openFold_cellstate (l : List Coordinate) :
    ∀ (acc : Board × List Constraint) (v : Coordinate), v ∈ l → acc.1.inBounds v →
      (((l.foldl openStep acc).1).getCell v).cell.state =
        (if (acc.1.getCell v).cell.state = CellState.Flagged then CellState.Flagged
         else CellState.Open) := by
  induction l with
  | nil => intro acc v hv _; exact absurd hv (List.not_mem_nil v)
  | cons a t ih =>
    intro acc v hv hb
    rw [List.foldl_cons]
    by_cases hva : v = a
    · subst hva
      have hself := cellstate_openStep_self acc v hb
      have hv' : (openStep acc v).1.inBounds v :=
        (inBounds_congr (dims_openStep acc v) v).mpr hb
      have hpres := openFold_pres t (openStep acc v) v hv'
        (by rw [hself]; split <;> simp)
      rw [hpres, hself]
    · rcases List.mem_cons.mp hv with h | h
      · exact absurd h hva
      · have hcell := cell_openStep_ne acc a v hva
        have hv' : (openStep acc a).1.inBounds v :=
          (inBounds_congr (dims_openStep acc a) v).mpr hb
        rw [ih (openStep acc a) v h hv', hcell]

/-- Once a cell's resolution is `MARKED`, the flagging loop keeps it so. -/
theorem flagFold_pres (l : List Coordinate) :
    ∀ (b0 : Board) (v : Coordinate), b0.inBounds v → (b0.getCell v).state = MARKED →
      ((l.foldl (fun acc w => acc.flag w) b0).getCell v).state = MARKED := by
  induction l with
  | nil => intro b0 v _ h; rw [List.foldl_nil]; exact h
  | cons a t ih =>
    intro b0 v hv hm
    rw [List.foldl_cons]
    apply ih (b0.flag a) v ((inBounds_congr (dims_flag b0 a) v).mpr hv)
    by_cases hva : v = a
    · subst hva; exact state_flag_self b0 v hv
    · rw [state_flag_ne b0 a v hva]; exact hm

/-- After the flagging loop, every in-bounds variable of the list is
`MARKED`. -/
theorem flagFold_marked (l : List Coordinate) :
    ∀ (b0 : Board) (v : Coordinate), v ∈ l → b0.inBounds v →
      ((l.foldl (fun acc w => acc.flag w) b0).getCell v).state = MARKED := by
  induction l with
  | nil => intro b0 v hv _; exact absurd hv (List.not_mem_nil v)
  | cons a t ih =>
    intro b0 v hv hb
    rw [List.foldl_cons]
    by_cases hva : v = a
    · subst hva
      exact flagFold_pres t (b0.flag v) v ((inBounds_congr (dims_flag b0 v) v).mpr hb)
        (state_flag_self b0 v hb)
    · rcases List.mem_cons.mp hv with h | h
      · exact absurd h hva
      · exact ih (b0.flag a) v h ((inBounds_congr (dims_flag b0 a) v).mpr hb)

/-- The branch structure of `Constraint::update_and_remove_known_variables`,
spelled out. -/
theorem update_eq_cases (self : Constraint) (b : Board) :
    self.update_and_remove_known_variables b =
      (if (removeKnownLoop b self.vars.length self.vars self.constant).1.isEmpty = true then
        ({ self with
            vars := (removeKnownLoop b self.vars.length self.vars self.constant).1
            constant := (removeKnownLoop b self.vars.length self.vars self.constant).2 },
          b, none)
      else if (removeKnownLoop b self.vars.length self.vars self.constant).2 = 0 then
        ({ self with vars := [], constant := 0 },
          (((removeKnownLoop b self.vars.length self.vars self.constant).1.foldl
              openStep (b, []))).1,
          some (((removeKnownLoop b self.vars.length self.vars self.constant).1.foldl
              openStep (b, []))).2)
      else if (removeKnownLoop b self.vars.length self.vars self.constant).2 =
          (((removeKnownLoop b self.vars.length self.vars self.constant).1.length : Int)) then
        ({ self with vars := [], constant := 0 },
          (removeKnownLoop b self.vars.length self.vars self.constant).1.foldl
            (fun acc v => acc.flag v) b,
          some [])
      else
        ({ self with
            vars := (removeKnownLoop b self.vars.length self.vars self.constant).1
            constant := (removeKnownLoop b self.vars.length self.vars self.constant).2 },
          b, none)) := rfl

/-- C4 (amended): `Constraint::update_and_remove_known_variables` first drops
every variable already resolved on the ledger, subtracting 1 from the constant
for each dropped `MARKED` variable; if no variable remains it returns `none`
(even when the remaining constant is 0); otherwise, with remaining constant 0
it opens every remaining variable on the ledger and returns the freshly built
constraints; with remaining constant equal to the remaining variable count it
flags every remaining variable and returns `some []`; in every other case it
returns `none`, leaving the board untouched and keeping the surviving
variables with the adjusted constant. -/
theorem update_and_remove_characterization (self : Constraint) (b : Board)
    (hb : ∀ v ∈ self.vars, b.inBounds v) :
    ((self.update_and_remove_known_variables b).2.2.isSome = true ↔
      (self.vars.filter (keepVar b) ≠ [] ∧
        (self.constant = ((self.vars.filter (markedVar b)).length : Int) ∨
          self.constant = ((self.vars.filter (markedVar b)).length : Int) +
            ((self.vars.filter (keepVar b)).length : Int)))) ∧
    ((self.update_and_remove_known_variables b).2.2 = none →
      (self.update_and_remove_known_variables b).2.1 = b ∧
      (self.update_and_remove_known_variables b).1.vars.Perm
        (self.vars.filter (keepVar b)) ∧
      (self.update_and_remove_known_variables b).1.constant =
        self.constant - ((self.vars.filter (markedVar b)).length : Int)) ∧
    (self.vars.filter (keepVar b) ≠ [] →
      self.constant = ((self.vars.filter (markedVar b)).length : Int) →
      ∀ v ∈ self.vars, keepVar b v = true →
        (((self.update_and_remove_known_variables b).2.1).getCell v).cell.state =
          (if (b.getCell v).cell.state = CellState.Flagged then CellState.Flagged
            else CellState.Open)) ∧
    (self.vars.filter (keepVar b) ≠ [] →
      self.constant ≠ ((self.vars.filter (markedVar b)).length : Int) →
      self.constant = ((self.vars.filter (markedVar b)).length : Int) +
        ((self.vars.filter (keepVar b)).length : Int) →
      ((self.update_and_remove_known_variables b).2.2 = some [] ∧
        ∀ v ∈ self.vars, keepVar b v = true →
          (((self.update_and_remove_known_variables b).2.1).getCell v).state = MARKED)) := by
  obtain ⟨hperm, hconst⟩ :=
    removeKnownLoop_spec b self.vars.length self.vars self.constant le_rfl
  rw [List.take_length] at hperm hconst
  rw [List.drop_length, List.append_nil] at hperm
  rw [update_eq_cases]
  set vc := removeKnownLoop b self.vars.length self.vars self.constant with hvc
  have hlen := hperm.length_eq
  have hlenZ : (vc.1.length : Int) = ((self.vars.filter (keepVar b)).length : Int) := by
    exact_mod_cast hlen
  have hnil_iff : vc.1 = [] ↔ self.vars.filter (keepVar b) = [] := by
    constructor <;> intro h
    · exact List.length_eq_zero.mp (by rw [← hlen, h]; rfl)
    · exact List.length_eq_zero.mp (by rw [hlen, h]; rfl)
  have hisEmpty : vc.1.isEmpty = true ↔ vc.1 = [] := by
    cases vc.1 <;> simp
  refine ⟨?_, ?_, ?_, ?_⟩
  · split_ifs with h1 h2 h3
    · have hK : self.vars.filter (keepVar b) = [] := hnil_iff.mp (hisEmpty.mp h1)
      simp [hK]
    · have hKne : self.vars.filter (keepVar b) ≠ [] :=
        fun h => h1 (hisEmpty.mpr (hnil_iff.mpr h))
      exact iff_of_true rfl ⟨hKne, Or.inl (by omega)⟩
    · have hKne : self.vars.filter (keepVar b) ≠ [] :=
        fun h => h1 (hisEmpty.mpr (hnil_iff.mpr h))
      exact iff_of_true rfl ⟨hKne, Or.inr (by omega)⟩
    · refine iff_of_false (by simp) ?_
      rintro ⟨hKne, hor⟩
      rcases hor with h | h
      · exact h2 (by omega)
      · exact h3 (by omega)
  · split_ifs with h1 h2 h3
    · intro _; exact ⟨rfl, hperm, hconst⟩
    · intro h; simp at h
    · intro h; simp at h
    · intro _; exact ⟨rfl, hperm, hconst⟩
  · intro hKne hc0 v hv hkv
    have h1 : ¬(vc.1.isEmpty = true) := fun h => hKne (hnil_iff.mp (hisEmpty.mp h))
    rw [if_neg h1, if_pos (show vc.2 = 0 by omega)]
    exact openFold_cellstate vc.1 (b, []) v
      (hperm.mem_iff.mpr (List.mem_filter.mpr ⟨hv, hkv⟩)) (hb v hv)
  · intro hKne hcne hcflag
    have h1 : ¬(vc.1.isEmpty = true) := fun h => hKne (hnil_iff.mp (hisEmpty.mp h))
    have h2 : ¬(vc.2 = 0) := by omega
    have h3 : vc.2 = (vc.1.length : Int) := by omega
    rw [if_neg h1, if_neg h2, if_pos h3]
    refine ⟨rfl, fun v hv hkv => ?_⟩
    exact flagFold_marked vc.1 b v
      (hperm.mem_iff.mpr (List.mem_filter.mpr ⟨hv, hkv⟩)) (hb v hv)

/-- A live constraint over the two still-constrained neighbors of the opened
cell of `exSolverB0`, used to exercise `update_and_remove_known_variables` on
its no-deduction branch. -/
def cex4 : Constraint :=
  { vars := [(0, 1), (0, 3)]
    constant := 1
    unassigned := 0
    current_constant := 0
    next_unassigned := none }

theorem update_and_remove_characterization_witness :
    (∀ v ∈ cex4.vars, exSolverB0.board.inBounds v) ∧
      (cex4.update_and_remove_known_variables exSolverB0.board).1.vars.Perm
        (cex4.vars.filter (keepVar exSolverB0.board)) :=
  ⟨by decide,
    (((update_and_remove_characterization cex4 exSolverB0.board (by decide)).2.1)
      (by decide)).2.1⟩

/-- C4 counterexample: for the one-variable constraint over the already-opened
cell `(0,2)` of `exSolverB0` with constant `0`, the removal phase drops the
variable and leaves remaining constant `0`, yet
`update_and_remove_known_variables` returns `none` instead of the (empty)
fresh-constraint list claimed for a zero remaining constant: the source
returns early whenever no variable remains. -/
theorem update_none_despite_zero_constant_counterexample :
    (0 : Int) ≤ (exSolverB0.board.getCell (0, 2)).state ∧
    (removeKnownLoop exSolverB0.board 1 [(0, 2)] 0).2 = 0 ∧
    ((⟨[(0, 2)], 0, 0, 0, none⟩ : Constraint).update_and_remove_known_variables
        exSolverB0.board).2.2 = none := by
  decide

/-! ### Claim C5 -/

theorem iter_neighbors_nodup (coord : Coordinate) (h w : Nat) :
    (iter_neighbors coord h w).Nodup := by
  unfold iter_neighbors
  apply List.Nodup.filter
  have hp : ((rangeIncl (coord.1 - 1) (min (coord.1 + 1) (h - 1))).map (fun i =>
      (rangeIncl (coord.2 - 1) (min (coord.2 + 1) (w - 1))).map (fun j => (i, j)))).flatten =
      (rangeIncl (coord.1 - 1) (min (coord.1 + 1) (h - 1))).product
        (rangeIncl (coord.2 - 1) (min (coord.2 + 1) (w - 1))) := rfl
  rw [hp]
  exact List.Nodup.product (by unfold rangeIncl; exact List.nodup_range' _ _)
    (by unfold rangeIncl; exact List.nodup_range' _ _)

/-- The neighbor fold of `Board::new_constraint`: on a duplicate-free neighbor
list whose resolutions agree with a reference board `b`, it appends exactly the
`keepVar`-neighbors to the variables and subtracts one from the running
constant per `markedVar`-neighbor. -/
theorem nc_fold_spec (b : Board) :
    ∀ (l : List Coordinate) (con0 : Constraint) (k0 : Int) (b0 : Board), l.Nodup →
      (∀ v ∈ l, (b0.getCell v).state = (b.getCell v).state) →
      (l.foldl
          (fun (acc : Constraint × Int × Board) n =>
            if (acc.2.2.getCell n).state < 0 then
              if (acc.2.2.getCell n).state = MARKED then (acc.1, acc.2.1 - 1, acc.2.2)
              else (acc.1.add_variable n, acc.2.1, acc.2.2.set_state n CONSTRAINED)
            else acc)
          (con0, k0, b0)).1 =
        { con0 with vars := con0.vars ++ l.filter (keepVar b) } ∧
      (l.foldl
          (fun (acc : Constraint × Int × Board) n =>
            if (acc.2.2.getCell n).state < 0 then
              if (acc.2.2.getCell n).state = MARKED then (acc.1, acc.2.1 - 1, acc.2.2)
              else (acc.1.add_variable n, acc.2.1, acc.2.2.set_state n CONSTRAINED)
            else acc)
          (con0, k0, b0)).2.1 = k0 - ((l.filter (markedVar b)).length : Int)
  | [], con0, k0, b0, _, _ => by
    constructor
    · simp
    · simp
  | n :: t, con0, k0, b0, hnd, hinv => by
    have hinvn : (b0.getCell n).state = (b.getCell n).state :=
      hinv n (List.mem_cons_self n t)
    simp only [List.foldl_cons]
    split_ifs with h1 h2
    · have hbn : (b.getCell n).state = MARKED := by rw [← hinvn]; exact h2
      have hk : keepVar b n = false := by simp [keepVar, hbn]
      have hm : markedVar b n = true := by simp [markedVar, hbn]
      obtain ⟨ih1, ih2⟩ := nc_fold_spec b t con0 (k0 - 1) b0 (List.nodup_cons.mp hnd).2
        (fun v hv => hinv v (List.mem_cons_of_mem n hv))
      constructor
      · rw [ih1, List.filter_cons_of_neg (by simp [hk])]
      · rw [ih2, List.filter_cons_of_pos hm, List.length_cons]
        push_cast
        ring
    · have h1b : (b.getCell n).state < 0 := by rw [← hinvn]; exact h1
      have h2b : ¬((b.getCell n).state = MARKED) := by rw [← hinvn]; exact h2
      have hk : keepVar b n = true := by
        simp only [keepVar, Bool.and_eq_true, decide_eq_true_eq, Bool.not_eq_true',
          decide_eq_false_iff_not]
        exact ⟨h1b, h2b⟩
      have hm : markedVar b n = false := by simp [markedVar, h2b]
      have hinv' : ∀ v ∈ t,
          ((b0.set_state n CONSTRAINED).getCell v).state = (b.getCell v).state := by
        intro v hv
        have hne : v ≠ n := by
          intro hc
          subst hc
          exact (List.nodup_cons.mp hnd).1 hv
        rw [state_set_state_ne b0 n v CONSTRAINED hne]
        exact hinv v (List.mem_cons_of_mem n hv)
      obtain ⟨ih1, ih2⟩ := nc_fold_spec b t (con0.add_variable n) k0
        (b0.set_state n CONSTRAINED) (List.nodup_cons.mp hnd).2 hinv'
      constructor
      · have hl : con0.vars ++ n :: List.filter (keepVar b) t =
            (con0.vars ++ [n]) ++ List.filter (keepVar b) t := List.append_cons ..
        rw [ih1, List.filter_cons_of_pos hk, hl]
        rfl
      · rw [ih2, List.filter_cons_of_neg (by simp [hm])]
    · have h1b : ¬((b.getCell n).state < 0) := by rw [← hinvn]; exact h1
      have h2b : ¬((b.getCell n).state = MARKED) :=
        fun hc => h1b (by rw [hc]; decide)
      have hk : keepVar b n = false := by simp [keepVar, h1b]
      have hm : markedVar b n = false := by simp [markedVar, h2b]
      obtain ⟨ih1, ih2⟩ := nc_fold_spec b t con0 k0 b0 (List.nodup_cons.mp hnd).2
        (fun v hv => hinv v (List.mem_cons_of_mem n hv))
      constructor
      · rw [ih1, List.filter_cons_of_neg (by simp [hk])]
      · rw [ih2, List.filter_cons_of_neg (by simp [hm])]

/-- C5 (amended): the code enforces no sign or size invariant on constraint
constants.  What holds at construction is the exact accounting:
`Board::new_constraint` on a resolved cell returns the constraint whose
variables are the still-unresolved non-`MARKED` neighbors and whose constant
is the cell's resolved value minus the number of `MARKED` neighbors; in
particular `0 ≤ constant` holds at construction whenever no neighbor is
`MARKED`, while a wrongly flagged neighbor can drive the constant below zero
(and the violation then persists through the update and simplify phases, as
the counterexample run shows). -/
theorem new_constraint_accounting (b : Board) (w : Coordinate)
    (h : ¬((b.getCell w).state < 0)) :
    (b.new_constraint w).2 = some
      { vars := (iter_neighbors w b.height b.width).filter (keepVar b)
        constant := (b.getCell w).state -
          (((iter_neighbors w b.height b.width).filter (markedVar b)).length : Int)
        unassigned := 0
        current_constant := 0
        next_unassigned := none } ∧
    (((iter_neighbors w b.height b.width).filter (markedVar b)).length = 0 →
      0 ≤ ((b.new_constraint w).2.getD Constraint.new).constant) := by
  obtain ⟨h1, h2⟩ := nc_fold_spec b (iter_neighbors w b.height b.width) Constraint.new
    ((b.getCell w).state) b (iter_neighbors_nodup w b.height b.width) (fun v _ => rfl)
  have hmain : (b.new_constraint w).2 = some
      { vars := (iter_neighbors w b.height b.width).filter (keepVar b)
        constant := (b.getCell w).state -
          (((iter_neighbors w b.height b.width).filter (markedVar b)).length : Int)
        unassigned := 0
        current_constant := 0
        next_unassigned := none } := by
    simp only [Board.new_constraint]
    rw [if_neg h]
    rw [show ((iter_neighbors w b.height b.width).foldl
        (fun (acc : Constraint × Int × Board) n =>
          if (acc.2.2.getCell n).state < 0 then
            if (acc.2.2.getCell n).state = MARKED then (acc.1, acc.2.1 - 1, acc.2.2)
            else (acc.1.add_variable n, acc.2.1, acc.2.2.set_state n CONSTRAINED)
          else acc)
        (Constraint.new, (b.getCell w).state, b)).1 =
      { Constraint.new with
          vars := Constraint.new.vars ++ (iter_neighbors w b.height b.width).filter (keepVar b) }
      from h1]
    rw [show ((iter_neighbors w b.height b.width).foldl
        (fun (acc : Constraint × Int × Board) n =>
          if (acc.2.2.getCell n).state < 0 then
            if (acc.2.2.getCell n).state = MARKED then (acc.1, acc.2.1 - 1, acc.2.2)
            else (acc.1.add_variable n, acc.2.1, acc.2.2.set_state n CONSTRAINED)
          else acc)
        (Constraint.new, (b.getCell w).state, b)).2.1 =
      (b.getCell w).state -
        (((iter_neighbors w b.height b.width).filter (markedVar b)).length : Int)
      from h2]
    rfl
  refine ⟨hmain, fun hm0 => ?_⟩
  rw [hmain]
  simp only [Option.getD_some]
  omega

/-- Concrete constraint used to exercise `new_constraint_accounting`. -/
theorem new_constraint_accounting_witness :
    ¬((exSolverC0.board.getCell (0, 0)).state < 0) ∧
      ((((iter_neighbors (0, 0) exSolverC0.board.height exSolverC0.board.width).filter
          (markedVar exSolverC0.board)).length = 0) →
        0 ≤ ((exSolverC0.board.new_constraint (0, 0)).2.getD Constraint.new).constant) :=
  ⟨by decide, (new_constraint_accounting exSolverC0.board (0, 0) (by decide)).2⟩

/-- C5 counterexample: running the constraint-update loop of
`simplify_constraints` on the freshly initialized solver of `exGridC` (a board
whose pre-placed flag sits on a safe cell) ends with the live two-variable
constraint over `(0,2)` and `(1,2)` carrying constant `-1`: the invariant
`0 ≤ constant ≤ variables.len()` fails for a live constraint produced by
`Board::new_constraint` and surviving `update_and_remove_known_variables`. -/
theorem negative_constant_after_update_counterexample :
    (updateLoop (exSolverC0.board.height * exSolverC0.board.width + 2)
        exSolverC0.board exSolverC0.constraints 0 true).map
      (fun r => r.2.1.map (fun c => (c.vars, c.constant))) =
      some [([], 0), ([], -1), ([(0, 2), (1, 2)], -1)] := by
  decide

/-! ### Claim C3 -/

/-- Sum of `min` over all components other than `i` (current values). -/
def othersMinSum (ss : List SolutionSet) (i : Nat) : Int :=
  ((ss.enum.filter (fun q => q.1 ≠ i)).map (fun q => q.2.min)).sum

/-- Sum of `max` over all components other than `i` (current values). -/
def othersMaxSum (ss : List SolutionSet) (i : Nat) : Int :=
  ((ss.enum.filter (fun q => q.1 ≠ i)).map (fun q => q.2.max)).sum

/-- The first `k` iterations of the cross-component bound pass of
`CSPSolver::solve` (the full pass is `crossBound` = `crossBoundPartial` at the
component count). -/
def crossBoundPartial (subsets : List SolutionSet) (remaining far : Int) (k : Nat) :
    List SolutionSet × Int × List (Int × Int) :=
  (List.range k).foldl
    (fun (acc : List SolutionSet × Int × List (Int × Int)) i =>
      let sums := acc.1.enum.foldl
        (fun (p : Int × Int) q => if q.1 ≠ i then (p.1 + q.2.min, p.2 + q.2.max) else p)
        (0, far)
      let args := (remaining - sums.2, remaining - sums.1)
      let subs1 := acc.1.set i ((acc.1.getD i default).reduce_min_max args.1 args.2)
      (subs1, acc.2.1 - (subs1.getD i default).min, acc.2.2 ++ [args]))
    (subsets, remaining, [])

/-- The `(min, max)` accumulator loop of the bound pass: starting from `p0` it
adds every other component's `min` to the first component and `max` to the
second. -/
theorem sums_fold_enumFrom (i : Nat) :
    ∀ (l : List SolutionSet) (n : Nat) (p0 : Int × Int),
      ((List.enumFrom n l).foldl
        (fun (p : Int × Int) q => if q.1 ≠ i then (p.1 + q.2.min, p.2 + q.2.max) else p) p0) =
      (p0.1 + (((List.enumFrom n l).filter (fun q => q.1 ≠ i)).map (fun q => q.2.min)).sum,
       p0.2 + (((List.enumFrom n l).filter (fun q => q.1 ≠ i)).map (fun q => q.2.max)).sum)
  | [], n, p0 => by simp
  | a :: t, n, p0 => by
    simp only [List.enumFrom, List.foldl_cons]
    by_cases hni : n = i
    · rw [if_neg (not_not_intro hni), List.filter_cons_of_neg (by simp [hni]),
        sums_fold_enumFrom i t (n + 1) p0]
    · rw [if_pos hni, List.filter_cons_of_pos (by simp [hni]),
        sums_fold_enumFrom i t (n + 1) (p0.1 + a.min, p0.2 + a.max)]
      simp only [List.map_cons, List.sum_cons, Prod.mk.injEq]
      constructor <;> ring

/-- The trace of argument pairs handed to `reduce_min_max` by the first `k`
iterations of the bound pass. -/
theorem crossBoundPartial_trace (subsets : List SolutionSet) (remaining far : Int) :
    ∀ k, (crossBoundPartial subsets remaining far k).2.2 =
      (List.range k).map (fun i =>
        (remaining - (far + othersMaxSum ((crossBoundPartial subsets remaining far i).1) i),
         remaining - othersMinSum ((crossBoundPartial subsets remaining far i).1) i))
  | 0 => rfl
  | k + 1 => by
    have hsplit : crossBoundPartial subsets remaining far (k + 1) =
        (fun (acc : List SolutionSet × Int × List (Int × Int)) i =>
          let sums := acc.1.enum.foldl
            (fun (p : Int × Int) q => if q.1 ≠ i then (p.1 + q.2.min, p.2 + q.2.max) else p)
            (0, far)
          let args := (remaining - sums.2, remaining - sums.1)
          let subs1 := acc.1.set i ((acc.1.getD i default).reduce_min_max args.1 args.2)
          (subs1, acc.2.1 - (subs1.getD i default).min, acc.2.2 ++ [args]))
          (crossBoundPartial subsets remaining far k) k := by
      unfold crossBoundPartial
      rw [List.range_succ, List.foldl_append, List.foldl_cons, List.foldl_nil]
    have hsums : (crossBoundPartial subsets remaining far k).1.enum.foldl
        (fun (p : Int × Int) q => if q.1 ≠ k then (p.1 + q.2.min, p.2 + q.2.max) else p)
        (0, far) =
        (othersMinSum (crossBoundPartial subsets remaining far k).1 k,
         far + othersMaxSum (crossBoundPartial subsets remaining far k).1 k) := by
      rw [show (crossBoundPartial subsets remaining far k).1.enum =
        List.enumFrom 0 (crossBoundPartial subsets remaining far k).1 from rfl]
      rw [sums_fold_enumFrom k (crossBoundPartial subsets remaining far k).1 0 (0, far)]
      rw [show List.enumFrom 0 (crossBoundPartial subsets remaining far k).1 =
          (crossBoundPartial subsets remaining far k).1.enum from rfl]
      simp [othersMinSum, othersMaxSum]
    rw [hsplit]
    simp only [hsums]
    rw [crossBoundPartial_trace subsets remaining far k, List.range_succ,
      List.map_append, List.map_cons, List.map_nil]

/-- C3 (amended): in each deduction-loop iteration, component `i` receives
from `reduce_min_max` the lower bound `remaining − (far + sum of the other
components' current max)` and the upper bound `remaining − sum of the other
components' current min`: the loop initializes its `(min, max)` accumulator to
`(0, far)`, so the unknown-cell count `far` also enters the lower bound (and
the sums use the other components' values current at call time, the earlier
components having already been reduced). -/
theorem cross_bound_args_spec (subsets : List SolutionSet) (remaining far : Int) :
    (crossBound subsets remaining far).2.2 =
      (List.range subsets.length).map (fun i =>
        (remaining - (far + othersMaxSum ((crossBoundPartial subsets remaining far i).1) i),
         remaining - othersMinSum ((crossBoundPartial subsets remaining far i).1) i)) := by
  rw [show crossBound subsets remaining far =
      crossBoundPartial subsets remaining far subsets.length from rfl]
  exact crossBoundPartial_trace subsets remaining far subsets.length

/-- Definition following the words of claim C3, not the source: component `i`
is said to receive `(remaining − sum of the other components' max,
remaining − sum of the other components' min)`, built only from `remaining`
and the other components' `min`/`max` sums. -/
def claimed_cross_args (subsets : List SolutionSet) (remaining : Int) : List (Int × Int) :=
  (List.range subsets.length).map (fun i =>
    (remaining - othersMaxSum subsets i, remaining - othersMinSum subsets i))

/-- The state of one `solve` loop iteration right before the cross-component
bound pass: the enumerated components, the ledger's unflagged-mine count
`remaining` and the unknown count `far` (the prefix of `CSPSolver.solve_step`,
projected). -/
def CSPSolver.cross_point (s : CSPSolver) : Option (List SolutionSet × Int × Int) :=
  match simplify_constraints (s.board.height * s.board.width + s.constraints.length + 3)
      s.board s.constraints with
  | none => none
  | some r =>
    let s1 : CSPSolver := { constraints := r.2, board := r.1 }
    if s1.board.done then none
    else
      let sep := s1.separate_constraints
      let s2 := sep.1
      let enumRes := sep.2.foldl
        (fun (acc : Option (List SolutionSet × Board)) ss =>
          match acc with
          | none => none
          | some st =>
            match ss.enumerate_solutions st.2 (enumFuel ss.vars.length) with
            | none => none
            | some r2 => some (st.1 ++ [r2.1], r2.2))
        (some ([], s2.board))
      match enumRes with
      | none => none
      | some st =>
        let s3 : CSPSolver := { s2 with board := st.2 }
        some (st.1, s3.board.unflagged_mines_fn, s3.board.unknown)

/-- C3 counterexample: in the first loop iteration of the solve run on
`exGridB` from `(0,2)` there is a single component, so the claim's formula
yields `(remaining − 0, remaining − 0) = (1, 1)`; the code instead passes
`(-1, 1)` to `reduce_min_max`, because its accumulator starts at
`(0, far)` with `far = 2` unknown cells, not at `(0, 0)`. -/
theorem cross_args_deviate_counterexample :
    (exSolverB0.cross_point).map (fun p => (crossBound p.1 p.2.1 p.2.2).2.2) =
        some [(-1, 1)] ∧
      (exSolverB0.cross_point).map (fun p => claimed_cross_args p.1 p.2.1) =
        some [(1, 1)] ∧
      (exSolverB0.cross_point).map (fun p => (p.2.1, p.2.2)) = some (1, 2) := by
  refine ⟨?_, ?_, ?_⟩ <;> decide

/-! ### Claim C10 -/

theorem foldl_add_map {α : Type} (g : α → Int) (l : List α) :
    ∀ a0 : Int, l.foldl (fun acc j => acc + g j) a0 = a0 + (l.map g).sum := by
  induction l with
  | nil => intro a0; simp
  | cons x t ih =>
    intro a0
    simp only [List.foldl_cons, List.map_cons, List.sum_cons, ih]
    ring

theorem sum_nonneg_all_zero (l : List Int) (h0 : ∀ x ∈ l, 0 ≤ x) (hs : l.sum = 0) :
    ∀ x ∈ l, x = 0 := by
  induction l with
  | nil => intro x hx; exact absurd hx (List.not_mem_nil x)
  | cons a t ih =>
    have hts : 0 ≤ t.sum := List.sum_nonneg (fun x hx => h0 x (List.mem_cons_of_mem a hx))
    have ha : 0 ≤ a := h0 a (List.mem_cons_self a t)
    rw [List.sum_cons] at hs
    intro x hx
    rcases List.mem_cons.mp hx with h | h
    · omega
    · exact ih (fun y hy => h0 y (List.mem_cons_of_mem a hy)) (by omega) x h

theorem range_map_getD {α : Type} [Inhabited α] (l : List α) :
    (List.range l.length).map (fun i => l.getD i default) = l := by
  apply List.ext_getElem
  · simp
  · intro i h1 h2
    simp [List.getD_eq_getElem?_getD, List.getElem?_eq_getElem h2]

/-- C10: when the surviving solution counts of a component sum to zero over
`[min, max]` (with the enumeration invariants that counts are nonnegative and
each per-variable mine tally is between 0 and the solution count of its
entry), `SolutionSet::mark_mines` flags every variable of the component on the
ledger: each per-variable total and the total solution count are both zero, so
the `total == total_solutions` test holds vacuously for every variable. -/
theorem mark_mines_flags_all (s : SolutionSet) (b : Board)
    (hb : ∀ v ∈ s.vars, b.inBounds v)
    (hsum : (intRangeIncl s.min s.max).foldl
      (fun acc j => acc + s.solutions.getD j.toNat 0) 0 = 0)
    (hsol : ∀ j ∈ intRangeIncl s.min s.max, 0 ≤ s.solutions.getD j.toNat 0)
    (hmines : ∀ j ∈ intRangeIncl s.min s.max, ∀ i < s.vars.length,
      0 ≤ (s.mines.getD j.toNat []).getD i 0)
    (hbound : ∀ j ∈ intRangeIncl s.min s.max, ∀ i < s.vars.length,
      (s.mines.getD j.toNat []).getD i 0 ≤ s.solutions.getD j.toNat 0) :
    ∀ v ∈ s.vars, ((s.mark_mines b).getCell v).state = MARKED := by
  have hsum' : ((intRangeIncl s.min s.max).map (fun j => s.solutions.getD j.toNat 0)).sum
      = 0 := by
    rw [foldl_add_map] at hsum
    omega
  have hz : ∀ j ∈ intRangeIncl s.min s.max, s.solutions.getD j.toNat 0 = 0 := by
    intro j hj
    exact sum_nonneg_all_zero _
      (by
        intro x hx
        obtain ⟨j', hj', hx'⟩ := List.mem_map.mp hx
        rw [← hx']
        exact hsol j' hj')
      hsum' _ (List.mem_map_of_mem _ hj)
  have hmz : ∀ j ∈ intRangeIncl s.min s.max, ∀ i < s.vars.length,
      (s.mines.getD j.toNat []).getD i 0 = 0 := by
    intro j hj i hi
    have h1 := hmines j hj i hi
    have h2 := hbound j hj i hi
    have h3 := hz j hj
    omega
  have htotal : ∀ i < s.vars.length, (intRangeIncl s.min s.max).foldl
      (fun acc j => acc + (s.mines.getD j.toNat []).getD i 0) 0 = 0 := by
    intro i hi
    rw [foldl_add_map, List.sum_eq_zero]
    · ring
    · intro x hx
      obtain ⟨j, hj, hx'⟩ := List.mem_map.mp hx
      rw [← hx']
      exact hmz j hj i hi
  intro v hv
  simp only [SolutionSet.mark_mines]
  have hfold : (List.range s.vars.length).foldl
      (fun bd i =>
        if (intRangeIncl s.min s.max).foldl
            (fun acc j => acc + (s.mines.getD j.toNat []).getD i 0) 0
          = (intRangeIncl s.min s.max).foldl
            (fun acc j => acc + s.solutions.getD j.toNat 0) 0
        then bd.flag (s.vars.getD i default) else bd) b
      = (List.range s.vars.length).foldl (fun bd i => bd.flag (s.vars.getD i default)) b := by
    apply List.foldl_ext
    intro bd i hi
    rw [if_pos (by rw [htotal i (List.mem_range.mp hi), hsum])]
  rw [hfold]
  rw [show (List.range s.vars.length).foldl (fun bd i => bd.flag (s.vars.getD i default)) b
      = ((List.range s.vars.length).map (fun i => s.vars.getD i default)).foldl
          (fun bd w => bd.flag w) b from (List.foldl_map _ _ _ _).symm,
    range_map_getD]
  exact flagFold_marked s.vars b v hv (hb v hv)

/-- A one-variable constraint whose component, after construction, carries an
empty `[min, max]` range (`min = 1 > 0 = max` before any enumeration), the
degenerate state in which every solution count trivially sums to zero. -/
def cex10 : Constraint :=
  { vars := [(0, 0)]
    constant := 1
    unassigned := 0
    current_constant := 0
    next_unassigned := none }

theorem mark_mines_flags_all_witness :
    (∀ v ∈ (SolutionSet.new [cex10]).vars, exSolverA0.board.inBounds v) ∧
      ∀ v ∈ (SolutionSet.new [cex10]).vars,
        (((SolutionSet.new [cex10]).mark_mines exSolverA0.board).getCell v).state = MARKED :=
  ⟨by decide,
    mark_mines_flags_all (SolutionSet.new [cex10]) exSolverA0.board
      (by decide) (by decide) (by decide) (by decide) (by decide)⟩

/-! ### Claim C8 -/

/-- The working-field recomputation fold of `Constraint::update_variable`. -/
theorem update_variable_fold (b : Board) :
    ∀ (l : List Coordinate) (acc0 : Constraint),
      (l.foldl
          (fun acc v =>
            let t := (b.getCell v).test_assignment
            if t < 0 then { acc with next_unassigned := some v, unassigned := acc.unassigned + 1 }
            else if 1 ≤ t then { acc with current_constant := acc.current_constant + 1 }
            else acc)
          acc0).constant = acc0.constant ∧
      (l.foldl
          (fun acc v =>
            let t := (b.getCell v).test_assignment
            if t < 0 then { acc with next_unassigned := some v, unassigned := acc.unassigned + 1 }
            else if 1 ≤ t then { acc with current_constant := acc.current_constant + 1 }
            else acc)
          acc0).current_constant = acc0.current_constant +
        ((l.filter (fun v => 1 ≤ (b.getCell v).test_assignment)).length : Int) ∧
      (l.foldl
          (fun acc v =>
            let t := (b.getCell v).test_assignment
            if t < 0 then { acc with next_unassigned := some v, unassigned := acc.unassigned + 1 }
            else if 1 ≤ t then { acc with current_constant := acc.current_constant + 1 }
            else acc)
          acc0).unassigned = acc0.unassigned +
        ((l.filter (fun v => (b.getCell v).test_assignment < 0)).length : Int)
  | [], acc0 => by
    refine ⟨rfl, ?_, ?_⟩ <;> simp
  | v :: t, acc0 => by
    simp only [List.foldl_cons]
    split_ifs with h1 h2
    · have hneg : ¬(1 ≤ (b.getCell v).test_assignment) := by omega
      obtain ⟨ih1, ih2, ih3⟩ := update_variable_fold b t
        { acc0 with next_unassigned := some v, unassigned := acc0.unassigned + 1 }
      refine ⟨ih1, ?_, ?_⟩
      · rw [ih2, List.filter_cons_of_neg (by simp [hneg])]
      · rw [ih3, List.filter_cons_of_pos (by simp [h1]), List.length_cons]
        push_cast
        ring
    · obtain ⟨ih1, ih2, ih3⟩ := update_variable_fold b t
        { acc0 with current_constant := acc0.current_constant + 1 }
      refine ⟨ih1, ?_, ?_⟩
      · rw [ih2, List.filter_cons_of_pos (by simp [h2]), List.length_cons]
        push_cast
        ring
      · rw [ih3, List.filter_cons_of_neg (by simp [h1])]
    · obtain ⟨ih1, ih2, ih3⟩ := update_variable_fold b t acc0
      refine ⟨ih1, ?_, ?_⟩
      · rw [ih2, List.filter_cons_of_neg (by simp [h2])]
      · rw [ih3, List.filter_cons_of_neg (by simp [h1])]

/-- `Constraint::update_variable` recomputes the working fields from the
current trial assignments: `current_constant` counts the variables assigned 1
and `unassigned` the unassigned ones; `constant` and the variables are kept. -/
theorem update_variable_spec (c : Constraint) (b : Board) :
    (c.update_variable b).constant = c.constant ∧
    (c.update_variable b).current_constant =
      ((c.vars.filter (fun v => 1 ≤ (b.getCell v).test_assignment)).length : Int) ∧
    (c.update_variable b).unassigned =
      ((c.vars.filter (fun v => (b.getCell v).test_assignment < 0)).length : Int) := by
  obtain ⟨h1, h2, h3⟩ := update_variable_fold b c.vars
    { c with current_constant := 0, unassigned := 0, next_unassigned := none }
  refine ⟨?_, ?_, ?_⟩ <;> unfold Constraint.update_variable
  · rw [h1]
  · rw [h2]
    simp
  · rw [h3]
    simp

/-- With every trial assignment 0 or 1, the count of 1-assigned variables is
the sum of the assignments. -/
theorem ones_count_eq_sum (b : Board) :
    ∀ (l : List Coordinate),
      (∀ v ∈ l, (b.getCell v).test_assignment = 0 ∨ (b.getCell v).test_assignment = 1) →
      ((l.filter (fun v => 1 ≤ (b.getCell v).test_assignment)).length : Int) =
        (l.map (fun v => (b.getCell v).test_assignment)).sum
  | [], _ => by simp
  | v :: t, ht => by
    have ihv := ht v (List.mem_cons_self v t)
    have ih := ones_count_eq_sum b t (fun u hu => ht u (List.mem_cons_of_mem v hu))
    rcases ihv with h | h
    · rw [List.filter_cons_of_neg (by simp [h]), List.map_cons, List.sum_cons, h, ih]
      ring
    · rw [List.filter_cons_of_pos (by simp [h]), List.length_cons, List.map_cons,
        List.sum_cons, h]
      push_cast
      rw [ih]
      ring

theorem sublist_sum_le {l1 l2 : List Int} (h : l1.Sublist l2) (h0 : ∀ x ∈ l2, 0 ≤ x) :
    l1.sum ≤ l2.sum := by
  induction h with
  | slnil => exact le_refl _
  | cons a hs ih =>
    rename_i u1 u2
    rw [List.sum_cons]
    have := ih (fun x hx => h0 x (List.mem_cons_of_mem a hx))
    have ha := h0 a (List.mem_cons_self a u2)
    omega
  | cons₂ a hs ih =>
    rename_i u1 u2
    rw [List.sum_cons, List.sum_cons]
    have := ih (fun x hx => h0 x (List.mem_cons_of_mem a hx))
    omega

/-- C8: at a complete assignment (`level` equal to the variable count), with
every trial assignment 0 or 1, the enumeration's distinct variables drawn from
the component's constraints, the constraints' working fields current for the
board and every constraint satisfied, the recorded mine count `m` satisfies
`0 ≤ m ≤` the sum of the constraint constants; with the statistics arrays
allocated at that sum plus one (as `construct` does), the updates
`solutions[m]` and `mines[m]` performed by the step are in bounds. -/
theorem enum_complete_assignment_in_bounds (vs : List Coordinate)
    (nodes : List ConstraintList) (s : EnumState)
    (hlev : s.level = (vs.length : Int))
    (hnd : vs.Nodup)
    (ht : ∀ v ∈ vs, (s.board.getCell v).test_assignment = 0 ∨
      (s.board.getCell v).test_assignment = 1)
    (hcover : ∀ v ∈ vs, ∃ c : Constraint, c ∈ s.constraints ∧ v ∈ c.vars)
    (hsub : ∀ c ∈ s.constraints, ∀ v ∈ c.vars, v ∈ vs)
    (hfields : ∀ c ∈ s.constraints, c = c.update_variable s.board)
    (hsat : ∀ c ∈ s.constraints, c.is_satisfied = true)
    (hlen : s.solutions.length =
      ((s.constraints.map (fun c : Constraint => c.constant)).sum).toNat + 1)
    (hml : s.mines.length = s.solutions.length) :
    (0 ≤ vs.foldl (fun acc v => acc + (s.board.getCell v).test_assignment) 0) ∧
    ((vs.foldl (fun acc v => acc + (s.board.getCell v).test_assignment) 0).toNat <
      s.solutions.length) ∧
    ((vs.foldl (fun acc v => acc + (s.board.getCell v).test_assignment) 0).toNat <
      s.mines.length) ∧
    (enumStep vs nodes s).solutions =
      s.solutions.set
        (vs.foldl (fun acc v => acc + (s.board.getCell v).test_assignment) 0).toNat
        (s.solutions.getD
          (vs.foldl (fun acc v => acc + (s.board.getCell v).test_assignment) 0).toNat 0 + 1) := by
  have hmsum : vs.foldl (fun acc v => acc + (s.board.getCell v).test_assignment) 0 =
      (vs.map (fun v => (s.board.getCell v).test_assignment)).sum := by
    rw [foldl_add_map]
    ring
  have hm0 : 0 ≤ (vs.map (fun v => (s.board.getCell v).test_assignment)).sum := by
    apply List.sum_nonneg
    intro x hx
    obtain ⟨v, hv, hx'⟩ := List.mem_map.mp hx
    rcases ht v hv with h | h <;> omega
  -- every constraint's constant is the sum of its variables' assignments
  have hconst : ∀ c ∈ s.constraints,
      c.constant = (c.vars.map (fun v => (s.board.getCell v).test_assignment)).sum := by
    intro c hc
    obtain ⟨hc1, hc2, hc3⟩ := update_variable_spec c s.board
    rw [← hfields c hc] at hc1 hc2 hc3
    have hunass : c.unassigned = 0 := by
      rw [hc3]
      rw [show c.vars.filter (fun v => (s.board.getCell v).test_assignment < 0) = []
        from List.filter_eq_nil_iff.mpr (by
          intro v hv
          rcases ht v (hsub c hc v hv) with h | h <;> simp [h])]
      rfl
    have hsatc := hsat c hc
    simp only [Constraint.is_satisfied, Bool.and_eq_true, Bool.or_eq_true,
      decide_eq_true_eq] at hsatc
    have hcur : c.current_constant = c.constant := by
      rcases hsatc with ⟨hle, h0 | heq⟩
      · omega
      · exact heq
    rw [← hcur, hc2]
    exact ones_count_eq_sum s.board c.vars (fun v hv => ht v (hsub c hc v hv))
  -- the total constant sum dominates the assignment sum over the variables
  have hL : (vs.map (fun v => (s.board.getCell v).test_assignment)).sum ≤
      (s.constraints.map (fun c => c.constant)).sum := by
    have hmapc : s.constraints.map (fun c => c.constant) =
        s.constraints.map (fun c =>
          (c.vars.map (fun v => (s.board.getCell v).test_assignment)).sum) :=
      List.map_congr_left hconst
    rw [hmapc]
    have hflat : (s.constraints.map (fun c =>
        (c.vars.map (fun v => (s.board.getCell v).test_assignment)).sum)).sum =
        (((s.constraints.map (fun c => c.vars)).flatten).map
          (fun v => (s.board.getCell v).test_assignment)).sum := by
      rw [List.map_flatten, List.sum_flatten, List.map_map, List.map_map]
      rfl
    rw [hflat]
    have hss : vs ⊆ (s.constraints.map (fun c => c.vars)).flatten := by
      intro v hv
      obtain ⟨c, hc, hvc⟩ := hcover v hv
      exact List.mem_flatten.mpr ⟨c.vars, List.mem_map_of_mem _ hc, hvc⟩
    obtain ⟨l, hperm, hsubl⟩ := hnd.subperm hss
    have hpm : (l.map (fun v => (s.board.getCell v).test_assignment)).Perm
        (vs.map (fun v => (s.board.getCell v).test_assignment)) := hperm.map _
    have hsm : (l.map (fun v => (s.board.getCell v).test_assignment)).Sublist
        (((s.constraints.map (fun c => c.vars)).flatten).map
          (fun v => (s.board.getCell v).test_assignment)) := hsubl.map _
    have hnn : ∀ x ∈ (((s.constraints.map (fun c => c.vars)).flatten).map
        (fun v => (s.board.getCell v).test_assignment)), 0 ≤ x := by
      intro x hx
      obtain ⟨v, hv, hx'⟩ := List.mem_map.mp hx
      obtain ⟨vl, hvl, hvm⟩ := List.mem_flatten.mp hv
      obtain ⟨c, hc, hcv⟩ := List.mem_map.mp hvl
      rcases ht v (hsub c hc v (by rw [hcv]; exact hvm)) with h | h <;> omega
    calc (vs.map (fun v => (s.board.getCell v).test_assignment)).sum
        = (l.map (fun v => (s.board.getCell v).test_assignment)).sum := hpm.sum_eq.symm
      _ ≤ _ := sublist_sum_le hsm hnn
  refine ⟨by rw [hmsum]; exact hm0, by rw [hmsum]; omega, by rw [hmsum, hml]; omega, ?_⟩
  simp only [enumStep]
  rw [if_pos hlev]

/-- A component state at a complete assignment, used to instantiate the C8
theorem: one variable `(0,1)` assigned 1, one satisfied constraint, statistics
arrays of length `constant + 1`. -/
def cex8 : EnumState :=
  { board := exSolverA0.board.modifyCell (0, 1) (fun c => { c with test_assignment := 1 })
    constraints := [{ vars := [(0, 1)]
                      constant := 1
                      unassigned := 0
                      current_constant := 1
                      next_unassigned := none }]
    solutions := [0, 0]
    mines := [[0], [0]]
    min := 1
    max := 0
    variable_index := [0]
    last_choice := -1
    level := 1 }

theorem enum_complete_assignment_in_bounds_witness :
    (cex8.level = ((([(0, 1)] : List Coordinate)).length : Int)) ∧
      ((([(0, 1)] : List Coordinate).foldl
          (fun acc v => acc + (cex8.board.getCell v).test_assignment) 0).toNat <
        cex8.solutions.length) :=
  ⟨by decide,
    (enum_complete_assignment_in_bounds [(0, 1)] [] cex8 (by decide) (by decide) (by decide)
      (by decide) (by decide) (by decide) (by decide) (by decide) (by decide)).2.1⟩

end MineSweeperr
